import Mathlib

set_option maxRecDepth 8000

attribute [local semireducible] Rat.add Rat.mul Rat.sub Rat.inv

/-!
Verification of the UbermagGUI geometry / spatial-profile engine.

Shallow embedding of the pure computational core of the repository:

* the composable damping / field-strength profile evaluators of
  `dep/damping_absorbing_region.py` (`AlphaProfile` variants,
  `CompositeAlpha`, `CompositeFieldStrength`, legacy `AlphaABC`),
* the region subdivision operations of
  `src/dep/custom_system_properties.py` (`subdivide_region`,
  `subdivide_region_new`) together with the container `MyRegions`,
* the coupling-table builder `add_inter_subregion_values`,
* the slice-and-scale operation
  `create_scaled_region_from_base_region` of
  `src/workspaces/initialisation/panels/region_utils.py`.

Python floats are modelled as exact rationals (`ℚ`); `round(x, n)` is
modelled by `roundTo` (round half to even, as Python's `round`),
`np.isclose` by `isClose`, `np.linspace` by `linspace`.  The
transcendental functions `np.exp`, `np.log` and `np.tanh` that appear in
the exponential / tanh profiles are carried as abstract function
parameters of the embedding (the claims about those profiles concern
branch structure and the rational arguments fed to them, not the
transcendental values themselves).
-/

/-- Floor of a rational, written so that the kernel can evaluate it
(`Int.fdiv` is floor division). -/
def ratFloor (q : ℚ) : ℤ :=
  q.num.fdiv (q.den : ℤ)

/-- Round half to even on an exact rational, the semantics of Python's
built-in `round` (and of `np.float64.__round__`) away from representation
issues. -/
def nearestInt (q : ℚ) : ℤ :=
  let f : ℤ := ratFloor q
  let r : ℚ := q - f
  if r < 1/2 then f
  else if 1/2 < r then f + 1
  else if f % 2 = 0 then f else f + 1

/-- `10 ^ n` as an exact rational, written recursively so that kernel
reduction stays cheap. -/
def tenPow : ℕ → ℚ
  | 0 => 1
  | n + 1 => 10 * tenPow n

/-- `roundTo n x` models Python's `round(x, n)`: round to `n` decimal
places, half to even. -/
def roundTo (n : ℕ) (x : ℚ) : ℚ :=
  (nearestInt (x * tenPow n) : ℚ) / tenPow n

/-- `np.isclose(a, b, rtol, atol)` on scalars:
`|a - b| <= atol + rtol * |b|`. -/
def isClose (a b atol rtol : ℚ) : Bool :=
  |a - b| ≤ atol + rtol * |b|

/-- Python's `int()` truncation of a real number toward zero. -/
def pyInt (q : ℚ) : ℤ :=
  if 0 ≤ q then ratFloor q else -(ratFloor (-q))

/-- `np.linspace a b n`: `n` evenly spaced samples from `a` to `b`
inclusive; `n = 1` degenerates to `[a]`. -/
def linspace (a b : ℚ) (n : ℕ) : List ℚ :=
  if n = 0 then []
  else if n = 1 then [a]
  else (List.range n).map (fun (i : ℕ) => a + (i : ℚ) * (b - a) / ((n : ℚ) - 1))

/-- Axes of the 3-D domain. -/
inductive Axis where
  | x | y | z
  deriving DecidableEq, Repr

/-- A 3-vector of exact rationals (a Python 3-tuple of floats). -/
structure Vec3 where
  x : ℚ
  y : ℚ
  z : ℚ
  deriving DecidableEq, Repr

/-- Component along an axis. -/
def getA (v : Vec3) : Axis → ℚ
  | .x => v.x
  | .y => v.y
  | .z => v.z

/-- Replace the component along an axis. -/
def setA (v : Vec3) (a : Axis) (q : ℚ) : Vec3 :=
  match a with
  | .x => { v with x := q }
  | .y => { v with y := q }
  | .z => { v with z := q }

/-- Componentwise minimum. -/
def vecMin (u v : Vec3) : Vec3 :=
  ⟨min u.x v.x, min u.y v.y, min u.z v.z⟩

/-- Componentwise maximum. -/
def vecMax (u v : Vec3) : Vec3 :=
  ⟨max u.x v.x, max u.y v.y, max u.z v.z⟩

/-- Round every component to `n` decimal places. -/
def roundVec (n : ℕ) (v : Vec3) : Vec3 :=
  ⟨roundTo n v.x, roundTo n v.y, roundTo n v.z⟩

/-- An axis-aligned box, the geometric content of `df.Region`. -/
structure Region3 where
  pmin : Vec3
  pmax : Vec3
  deriving DecidableEq, Repr

/-- `df.Region(p1=.., p2=..)`: the constructor accepts unordered corners
and sorts them componentwise into `pmin`/`pmax`. -/
def regionFromCorners (p1 p2 : Vec3) : Region3 :=
  ⟨vecMin p1 p2, vecMax p1 p2⟩

/-- Point containment `pos in region` of `df.Region`: closed inequalities
on all three axes. -/
def memRegion (p : Vec3) (r : Region3) : Bool :=
  (r.pmin.x ≤ p.x && p.x ≤ r.pmax.x) &&
  (r.pmin.y ≤ p.y && p.y ≤ r.pmax.y) &&
  (r.pmin.z ≤ p.z && p.z ≤ r.pmax.z)

/-- `df.Region.scale(factor, reference_point)`: each corner is mapped to
`ref + factor * (corner - ref)` componentwise, and the resulting corners
are re-sorted by the `Region` constructor. -/
def scaleRegion (r : Region3) (factor reference : Vec3) : Region3 :=
  regionFromCorners
    ⟨reference.x + factor.x * (r.pmin.x - reference.x),
     reference.y + factor.y * (r.pmin.y - reference.y),
     reference.z + factor.z * (r.pmin.z - reference.z)⟩
    ⟨reference.x + factor.x * (r.pmax.x - reference.x),
     reference.y + factor.y * (r.pmax.y - reference.y),
     reference.z + factor.z * (r.pmax.z - reference.z)⟩

/-! ## Python `dict` as an insertion-ordered association list

Python dicts preserve insertion order; assigning to an existing key
replaces its value in place, assigning to a fresh key appends.  All
dict-valued data of the engine (`value_dict`, subregion containers,
coupling tables) is modelled this way. -/

/-- `m[k] = v` on a Python dict: replace in place if `k` is present,
append otherwise. -/
def dictInsert {α : Type} (m : List (String × α)) (k : String) (v : α) :
    List (String × α) :=
  if m.any (fun kv => kv.1 = k) then
    m.map (fun kv => if kv.1 = k then (k, v) else kv)
  else m ++ [(k, v)]

/-- `m.get(k)`: value at the first (hence, for genuine dicts, only)
occurrence of `k`. -/
def dictLookup {α : Type} (m : List (String × α)) (k : String) : Option α :=
  (m.find? (fun kv => kv.1 = k)).map Prod.snd

/-- `m.update(d)`: assign every entry of `d` into `m`, in order. -/
def dictUpdate {α : Type} (m d : List (String × α)) : List (String × α) :=
  d.foldl (fun acc kv => dictInsert acc kv.1 kv.2) m

/-- Fold `dict.update` over a list of dicts, starting from `{}`. -/
def dictMergeAll {α : Type} (ds : List (List (String × α))) :
    List (String × α) :=
  ds.foldl dictUpdate []

/-! ## Spatial profiles (`dep/damping_absorbing_region.py`)

Each profile is a callable `position -> Option value`; `none` means "this
profile does not govern this position". -/

/-- `BulkAlpha.__call__`: always returns the stored constant. -/
def bulkAlpha (alpha_bulk : ℚ) : Vec3 → Option ℚ :=
  fun _ => some alpha_bulk

/-- `DrivenRegionAlpha.__call__` (the scalar region-gated profile):
the constant inside `region`, `None` outside. -/
def drivenRegionAlpha (region : Region3) (alpha_driven : ℚ) :
    Vec3 → Option ℚ :=
  fun pos => if memRegion pos region then some alpha_driven else none

/-- `LinearGradientAlpha.__call__`. -/
def linearGradientAlpha (region : Region3) (x0 x1 alpha_left alpha_right : ℚ) :
    Vec3 → Option ℚ :=
  fun pos =>
    if ¬ memRegion pos region then none
    else if pos.x < x0 ∨ x1 < pos.x then none
    else
      let t := (pos.x - x0) / (x1 - x0)
      some (alpha_left + t * (alpha_right - alpha_left))

/-- `AbsorbingLinearAlpha.__call__`: linear ramp of width `w` anchored on
the two x-faces of `region`; `None` deeper than `w` from both faces and
`None` outside the region. -/
def absorbingLinearAlpha (region : Region3) (w alpha_bulk : ℚ)
    (reverse : Bool) : Vec3 → Option ℚ :=
  fun pos =>
    if ¬ memRegion pos region then none
    else
      let xmin := region.pmin.x
      let xmax := region.pmax.x
      let dL := pos.x - xmin
      if dL ≤ w then
        let t := dL / w
        if ¬ reverse then some (1 - (1 - alpha_bulk) * t)
        else some (alpha_bulk + (1 - alpha_bulk) * t)
      else
        let dR := xmax - pos.x
        if dR ≤ w then
          let t := dR / w
          if ¬ reverse then some (1 - (1 - alpha_bulk) * t)
          else some (alpha_bulk + (1 - alpha_bulk) * t)
        else none

/-- `AbsorbingExponentialAlpha.__call__`.  The instance attribute
`self.log_bulk = np.log(alpha_bulk)` is carried as the parameter
`log_bulk`, and `np.exp` as the abstract function `ex`. -/
def absorbingExponentialAlpha (region : Region3) (w log_bulk : ℚ)
    (reverse : Bool) (ex : ℚ → ℚ) : Vec3 → Option ℚ :=
  fun pos =>
    if ¬ memRegion pos region then none
    else
      let xmin := region.pmin.x
      let xmax := region.pmax.x
      let dL := pos.x - xmin
      if dL ≤ w then
        let frac := dL / w
        if ¬ reverse then some (ex (log_bulk * frac))
        else some (ex (log_bulk * (1 - frac)))
      else
        let dR := xmax - pos.x
        if dR ≤ w then
          let frac := dR / w
          if ¬ reverse then some (ex (log_bulk * frac))
          else some (ex (log_bulk * (1 - frac)))
        else none

/-- The tanh mix helper inside `AbsorbingTanhAlpha.__call__`;
`np.tanh` is carried as the abstract function `th`. -/
def tanhMix (alpha_bulk k : ℚ) (reverse : Bool) (th : ℚ → ℚ) (t : ℚ) : ℚ :=
  let y := th (k * (2 * t - 1))
  let s := if ¬ reverse then (1 - y) / 2 else (1 + y) / 2
  alpha_bulk + (1 - alpha_bulk) * s

/-- `AbsorbingTanhAlpha.__call__`. -/
def absorbingTanhAlpha (region : Region3) (w alpha_bulk k : ℚ)
    (reverse : Bool) (th : ℚ → ℚ) : Vec3 → Option ℚ :=
  fun pos =>
    if ¬ memRegion pos region then none
    else
      let xmin := region.pmin.x
      let xmax := region.pmax.x
      let dL := pos.x - xmin
      if dL ≤ w then some (tanhMix alpha_bulk k reverse th (dL / w))
      else
        let dR := xmax - pos.x
        if dR ≤ w then some (tanhMix alpha_bulk k reverse th (dR / w))
        else none

/-- `CompositeAlpha.__call__`: try the profiles in list order, return the
first non-`None` value, fall back to `alpha_bulk`. -/
def compositeAlpha (profiles : List (Vec3 → Option ℚ)) (alpha_bulk : ℚ)
    (pos : Vec3) : ℚ :=
  match profiles with
  | [] => alpha_bulk
  | p :: rest =>
    match p pos with
    | some val => val
    | none => compositeAlpha rest alpha_bulk pos

/-- `UniformFieldStrength.__call__` (the vector region-gated profile). -/
def uniformFieldStrength (region : Region3) (strength : Vec3) :
    Vec3 → Option Vec3 :=
  fun pos => if memRegion pos region then some strength else none

/-- `CompositeFieldStrength.__call__`: the same first-match-wins loop for
vector-valued profiles. -/
def compositeFieldStrength (profiles : List (Vec3 → Option Vec3))
    (field_strength_bulk : Vec3) (pos : Vec3) : Vec3 :=
  match profiles with
  | [] => field_strength_bulk
  | p :: rest =>
    match p pos with
    | some val => val
    | none => compositeFieldStrength rest field_strength_bulk pos

/-! ## The legacy monolithic evaluator `AlphaABC.__call__`

The legacy class converts the position to nanometres and then tests the
scalar x-coordinate `xn` against subregions with `xn in subregion.region`;
the embedding models that containment as an interval test on the
subregion's x-extent.  `np.log(alpha_bulk)` is carried as `log_bulk` and
`np.exp` as `ex`.  The damping width is derived as
`int(edges_x / multiplier)`, faithful to
`[int(val / multiplier) for val in edges]`. -/

/-- An x-axis interval (the x-extent of a subregion, in the legacy
evaluator's nanometre units). -/
structure XInterval where
  lo : ℚ
  hi : ℚ
  deriving DecidableEq, Repr

/-- Scalar membership test used by `AlphaABC` for `xn in region`. -/
def memX (xn : ℚ) (i : XInterval) : Bool :=
  i.lo ≤ xn && xn ≤ i.hi

/-- `AlphaABC.__call__` at a position with x-coordinate `xn` (nm).
`domain_min`/`domain_max` are the system's outer x-faces (`p1[0]*1e9`,
`p2[0]*1e9`), `edges_x` and `multiplier` the attributes of the
`dampingLhs` region used to derive the absorbing width.

Line-by-line image of the source, including the `or` on the damping
membership test at line 80 of `dep/damping_absorbing_region.py`. -/
def alphaABC (alpha_bulk alpha_driven : ℚ) (driven dampingLhs dampingRhs : XInterval)
    (domain_min domain_max edges_x multiplier log_bulk : ℚ) (ex : ℚ → ℚ)
    (xn : ℚ) : ℚ :=
  if memX xn driven then alpha_driven
  else if ¬ memX xn dampingLhs ∨ ¬ memX xn dampingRhs then alpha_bulk
  else
    let width : ℚ := (pyInt (edges_x / multiplier) : ℚ)
    let xa := domain_min + width
    let xb := domain_max - width
    if xn < xa then ex ((domain_min - xn) * log_bulk / (domain_min - xa))
    else if xb < xn then ex ((domain_max - xn) * log_bulk / (domain_max - xb))
    else alpha_bulk

/-! ## Slice-and-scale
(`src/workspaces/initialisation/panels/region_utils.py`) -/

/-- Which face of the base region the slab is carved from: the source
maps the strings `max`/`+ve`/`positive` to the positive face and
`min`/`-ve`/`negative` to the negative face. -/
inductive Face where
  | positive | negative
  deriving DecidableEq, Repr

/-- `_ROUND_PRECISION` of `region_utils.py`. -/
def ROUND_PRECISION : ℕ := 9

/-- `_make_region(p1, p2, template)`: round both corners to
`_ROUND_PRECISION` decimals, then `Region(p1=…, p2=…)`. -/
def make_region (p1 p2 : Vec3) : Region3 :=
  regionFromCorners (roundVec ROUND_PRECISION p1) (roundVec ROUND_PRECISION p2)

/-- `create_scaled_region_from_base_region` of `region_utils.py`: carve a
one-cell slab off the chosen face of `base_region` along `axis`, then
scale it about its own `pmin` by `scale_amount` (cell count) or by
`round(scale_amount / cell[axis], 9)` (absolute length). -/
def create_scaled_region_from_base_region (base_region : Region3)
    (scale_amount : ℚ) (cell : Vec3) (reference_side : Face)
    (scale_along_axis : Axis) (is_scale_absolute : Bool) : Region3 :=
  let axis := scale_along_axis
  let corners :=
    match reference_side with
    | .positive =>
      (setA base_region.pmin axis (getA base_region.pmax axis),
       setA base_region.pmax axis (getA base_region.pmax axis + getA cell axis))
    | .negative =>
      (setA base_region.pmin axis (getA base_region.pmin axis - getA cell axis),
       setA base_region.pmax axis (getA base_region.pmin axis))
  let slab := make_region corners.1 corners.2
  let factor :=
    if is_scale_absolute then roundTo ROUND_PRECISION (scale_amount / getA cell axis)
    else scale_amount
  let scale_factors := setA ⟨1, 1, 1⟩ axis factor
  let scaled_region := scaleRegion slab scale_factors slab.pmin
  make_region scaled_region.pmin scaled_region.pmax

/-! ## Subdivision (`src/dep/custom_system_properties.py`)

`subdivide_region` operates on the attribute container `MyRegions`
(modelled as an insertion-ordered association list of named
`SubRegion`s) and mutates it in place via `add_subregion` /
`delete_subregion`; `subdivide_region_new` operates on a `df.Mesh` and
builds a fresh subregions dict.  Both loops are modelled over the
explicit list of pieces `(i, d0, d1, interp_i)` the Python `for i in
range(total)` iterates over. -/

/-- The data of `csp.SubRegion` used by the subdivision code: the name,
the two corners, and the optional `cell` attribute. -/
structure SubRegionData where
  name : String
  pmin : Vec3
  pmax : Vec3
  cell : Option Vec3
  deriving DecidableEq, Repr

/-- The `MyRegions._details` container: insertion-ordered named
`SubRegion`s. -/
abbrev RegionsList : Type := List (String × SubRegionData)

/-- `MyRegions.add_subregion`: raises `KeyError` when the name exists,
appends otherwise. -/
def add_subregion (regs : RegionsList) (sub : SubRegionData) :
    Except String RegionsList :=
  if (List.any regs fun kv => kv.1 = sub.name) then
    Except.error ("Subregion " ++ sub.name ++ " already exists")
  else Except.ok (List.append regs [(sub.name, sub)])

/-- `MyRegions.delete_subregion`: raises `KeyError` when the name is
absent, removes the entry otherwise. -/
def delete_subregion (regs : RegionsList) (key : String) :
    Except String RegionsList :=
  if (List.any regs fun kv => kv.1 = key) then
    Except.ok (List.filter (fun kv => ¬ kv.1 = key) regs)
  else Except.error ("Subregion " ++ key ++ " does not exist")

/-- Errors raised by the subdivision operations, as structured values
(the Python code raises `ValueError`/`KeyError` with formatted
messages). -/
inductive SubdivideError where
  /-- `subdivide_region`: "Subregion {root}_{i} length … along axis … is
  not discretisable by cell size …" — names the piece root and index. -/
  | discretisationNamed (name_root : String) (index : ℕ) (axis : Axis)
  /-- `subdivide_region_new`: "Subregion length {len} not multiple of
  cell {cell}" — reports only the offending length and cell size. -/
  | discretisationLength (length cell : ℚ)
  /-- `KeyError` propagated from the container. -/
  | containerKey (msg : String)
  /-- "partition_distances out of range" / "All partition distances must
  be …". -/
  | badPartition
  /-- "Either n_subdivisions or partition_distances must be …". -/
  | missingSpec
  deriving DecidableEq, Repr

/-- Boundary offsets: `[0] + partition_distances + [length]` when
distances are given (after the range check), else
`np.linspace(0, length, n+1)`. -/
def subdivisionBoundaries (n_subdivisions : Option ℕ)
    (partition_distances : Option (List ℚ)) (length : ℚ) :
    Except SubdivideError (List ℚ) :=
  match partition_distances with
  | some ds =>
    if ds.any (fun d => d < 0) ∨ ds.any (fun d => length < d) then
      Except.error SubdivideError.badPartition
    else Except.ok ([0] ++ ds ++ [length])
  | none =>
    match n_subdivisions with
    | some n => Except.ok (linspace 0 length (n + 1))
    | none => Except.error SubdivideError.missingSpec

/-- The items `(i, boundaries[i], boundaries[i+1], interp[i])` visited by
`for i in range(total)`. -/
def mkPieces : ℕ → List ℚ → List ℚ → List (ℕ × ℚ × ℚ × ℚ)
  | i, b0 :: b1 :: bs, v :: vs => (i, b0, b1, v) :: mkPieces (i + 1) (b1 :: bs) vs
  | _, _, _ => []

/-- The discretisation test of `subdivide_region` (lines 646-652):
`not np.isclose(ratio, round(ratio), atol=discretisation_tol)` with
numpy's default relative tolerance `rtol = 1e-5`. -/
def sdrCheckFails (new_length cell_size tol : ℚ) : Bool :=
  let ratio := new_length / cell_size
  ¬ isClose ratio (nearestInt ratio : ℚ) tol (1/100000)

/-- The discretisation test of `subdivide_region_new` (lines 520-522):
`abs(ratio - round(ratio)) > discretisation_tol`. -/
def newCheckFails (new_length cell_size tol : ℚ) : Bool :=
  let ratio := new_length / cell_size
  |ratio - (nearestInt ratio : ℚ)| > tol

/-- Default `discretisation_tol` of both subdivision signatures. -/
def discretisation_tol_default : ℚ := 1/1000000

/-- Lines 630-633 of `subdivide_region`: the parent's cell attribute is
usable when present with positive component sum (`sum(cell) > 0`). -/
def cellAvailable (cellOpt : Option Vec3) : Bool :=
  match cellOpt with
  | some c => decide (0 < c.x + c.y + c.z)
  | none => false

/-- The parent cell size along the chosen axis (`0` when absent; unused
in that case because the check is disabled). -/
def cellAlong (cellOpt : Option Vec3) (axis : Axis) : ℚ :=
  match cellOpt with
  | some c => getA c axis
  | none => 0

/-- The piece loop of `subdivide_region` (lines 636-659): for each piece,
set the axis bounds (rounded to `rnd_precision = 10` decimals), run the
discretisation check when enabled, then `regions.add_subregion(...)` —
note that this mutates the caller's container before later pieces are
checked — and record `round(interp_values[i], 4)` in `value_dict`. -/
def sdrLoop (root : String) (axis : Axis) (checkOn : Bool) (cellA tol : ℚ)
    (parent_pmin parent_pmax : Vec3) :
    List (ℕ × ℚ × ℚ × ℚ) → RegionsList → List (String × ℚ) →
    RegionsList × List (String × ℚ) × Option SubdivideError
  | [], regs, vd => (regs, vd, none)
  | (i, d0, d1, v) :: rest, regs, vd =>
    let new_pmin := setA parent_pmin axis (roundTo 10 (getA parent_pmin axis + d0))
    let new_pmax := setA parent_pmax axis (roundTo 10 (getA parent_pmin axis + d1))
    if checkOn && sdrCheckFails (getA new_pmax axis - getA new_pmin axis) cellA tol then
      (regs, vd, some (SubdivideError.discretisationNamed root i axis))
    else
      let subregion_name := root ++ toString i
      match add_subregion regs ⟨subregion_name, new_pmin, new_pmax, none⟩ with
      | Except.error m => (regs, vd, some (SubdivideError.containerKey m))
      | Except.ok regs2 =>
        sdrLoop root axis checkOn cellA tol parent_pmin parent_pmax rest regs2
          (dictInsert vd subregion_name (roundTo 4 v))

/-- `subdivide_region` (lines 534-665).  The result carries the caller's
container as it stands when the function returns or raises (the Python
function mutates `regions` in place), the `value_dict`, and the raised
error if any. -/
def subdivide_region (regions : RegionsList) (main_region : SubRegionData)
    (value_min value_max : ℚ) (compatible_discretisation : Bool)
    (parent_name : Option String) (subregion_name_root : Option String)
    (n_subdivisions : Option ℕ) (partition_distances : Option (List ℚ))
    (axis : Axis) (remove_parent : Bool) (parent_key : String)
    (discretisation_tol : ℚ) :
    RegionsList × List (String × ℚ) × Option SubdivideError :=
  let parent_pmin := main_region.pmin
  let parent_pmax := main_region.pmax
  let parent_length := getA parent_pmax axis - getA parent_pmin axis
  let pname := parent_name.getD main_region.name
  let root := subregion_name_root.getD (pname ++ "_sub")
  match subdivisionBoundaries n_subdivisions partition_distances parent_length with
  | Except.error e => (regions, [], some e)
  | Except.ok boundaries =>
    let total := boundaries.length - 1
    let interp := linspace value_min value_max total
    let res := sdrLoop root axis
      (compatible_discretisation && cellAvailable main_region.cell)
      (cellAlong main_region.cell axis) discretisation_tol
      parent_pmin parent_pmax (mkPieces 0 boundaries interp) regions []
    match res.2.2 with
    | some _ => res
    | none =>
      if remove_parent then
        match delete_subregion res.1 parent_key with
        | Except.ok regs2 => (regs2, res.2.1, none)
        | Except.error m => (res.1, res.2.1, some (SubdivideError.containerKey m))
      else res

/-- The mesh carried by `subdivide_region_new`: overall region, cell
sizes, and the named subregions dict. -/
structure MeshData where
  region : Region3
  cell : Vec3
  subregions : List (String × Region3)
  deriving DecidableEq, Repr

/-- The piece loop of `subdivide_region_new` (lines 511-526): bounds
rounded to 9 decimals, discretisation check always on, plain dict
assignment into the local `new_subs`/`value_dict` (never the caller's
mesh), value stored exactly as `float(interp[i])`. -/
def newLoop (name_root : String) (axis : Axis) (cellA tol : ℚ)
    (pmin pmax : Vec3) :
    List (ℕ × ℚ × ℚ × ℚ) → List (String × Region3) → List (String × ℚ) →
    List (String × Region3) × List (String × ℚ) × Option SubdivideError
  | [], subs, vd => (subs, vd, none)
  | (i, d0, d1, v) :: rest, subs, vd =>
    let p1 := setA pmin axis (roundTo 9 (getA pmin axis + d0))
    let p2 := setA pmax axis (roundTo 9 (getA pmin axis + d1))
    let new_length := getA p2 axis - getA p1 axis
    if newCheckFails new_length cellA tol then
      (subs, vd, some (SubdivideError.discretisationLength new_length cellA))
    else
      let name := name_root ++ "_" ++ toString i
      newLoop name_root axis cellA tol pmin pmax rest
        (dictInsert subs name (regionFromCorners p1 p2)) (dictInsert vd name v)

/-- `subdivide_region_new` (lines 417-532): pure — it assembles a fresh
subregions dict locally and builds the new mesh only after every piece
has passed the check, so an error leaves the caller's mesh untouched. -/
def subdivide_region_new (mesh : MeshData) (region : Region3)
    (value_min value_max : ℚ) (n_subdivisions : Option ℕ)
    (partition_distances : Option (List ℚ)) (axis : Axis)
    (name_root : String) (remove_parent : Bool) (discretisation_tol : ℚ) :
    Except SubdivideError (MeshData × List (String × ℚ)) :=
  let pmin := region.pmin
  let pmax := region.pmax
  let length := getA pmax axis - getA pmin axis
  match subdivisionBoundaries n_subdivisions partition_distances length with
  | Except.error e => Except.error e
  | Except.ok boundaries =>
    let total := boundaries.length - 1
    let interp := linspace value_min value_max total
    let cellA := getA mesh.cell axis
    let new_subs0 :=
      if remove_parent then mesh.subregions.filter (fun kv => ¬ kv.2 = region)
      else mesh.subregions
    let res := newLoop name_root axis cellA discretisation_tol pmin pmax
      (mkPieces 0 boundaries interp) new_subs0 []
    match res.2.2 with
    | some e => Except.error e
    | none => Except.ok ({ mesh with subregions := res.1 }, res.2.1)

/-! ## Coupling-table synthesis (`add_inter_subregion_values`,
`src/dep/custom_system_properties.py` lines 668-711) -/

/-- The `for a, b in zip(keys, keys[1:])` walk: write the self-coupling
of `a`, then both directions of the rounded interface mean. -/
def interSubregionLoop (merged : List (String × ℚ)) (precision : ℕ) :
    List String → List (String × ℚ) → List (String × ℚ)
  | a :: b :: rest, nd =>
    let va := (dictLookup merged a).getD 0
    let vb := (dictLookup merged b).getD 0
    let avg := roundTo precision ((va + vb) / 2)
    interSubregionLoop merged precision (b :: rest)
      (dictInsert (dictInsert (dictInsert nd a va) (a ++ ":" ++ b) avg)
        (b ++ ":" ++ a) avg)
  | _, nd => nd

/-- `add_inter_subregion_values(*dicts, dmi_chain_left, dmi_chain_right,
precision)`: merge the dicts in order (last wins), then end caps with
`dmi_chain_left`, the adjacent-pair walk, the last self-coupling, and
end caps with `dmi_chain_right`. -/
def add_inter_subregion_values (dicts : List (List (String × ℚ)))
    (dmi_chain_left dmi_chain_right : ℚ) (precision : ℕ) :
    List (String × ℚ) :=
  let merged := dictMergeAll dicts
  let keys := merged.map Prod.fst
  match keys with
  | [] => []
  | first :: restKeys =>
    let lastK := List.getLastD (first :: restKeys) first
    let d1 := dictInsert [] ("entire:" ++ first) dmi_chain_left
    let d2 := dictInsert d1 (first ++ ":entire") dmi_chain_left
    let d3 := interSubregionLoop merged precision (first :: restKeys) d2
    let d4 := dictInsert d3 lastK ((dictLookup merged lastK).getD 0)
    let d5 := dictInsert d4 (lastK ++ ":entire") dmi_chain_right
    dictInsert d5 ("entire:" ++ lastK) dmi_chain_right

/-! ## Specification-side characterisations

Definitions below restate, in direct form, what the loops above compute;
the theorems relate them to the embedded source functions. -/

/-- Name of piece `i` created by `subdivide_region`:
`f"{subregion_name_root}{i}"` (no separator). -/
def sdrPieceName (root : String) (it : ℕ × ℚ × ℚ × ℚ) : String :=
  root ++ toString it.1

/-- The `SubRegion` committed for a piece by `subdivide_region`. -/
def sdrPieceSub (root : String) (axis : Axis) (pmin pmax : Vec3)
    (it : ℕ × ℚ × ℚ × ℚ) : SubRegionData :=
  ⟨root ++ toString it.1,
   setA pmin axis (roundTo 10 (getA pmin axis + it.2.1)),
   setA pmax axis (roundTo 10 (getA pmin axis + it.2.2.1)),
   none⟩

/-- Whether `subdivide_region`'s discretisation test rejects a piece
(given that the check is enabled). -/
def sdrPieceFails (cellA tol pminA : ℚ)
    (it : ℕ × ℚ × ℚ × ℚ) : Bool :=
  sdrCheckFails (roundTo 10 (pminA + it.2.2.1) - roundTo 10 (pminA + it.2.1))
    cellA tol

/-- Name of piece `i` created by `subdivide_region_new`:
`f"{name_root}_{i}"` (underscore separator). -/
def newPieceName (root : String) (it : ℕ × ℚ × ℚ × ℚ) : String :=
  root ++ "_" ++ toString it.1

/-- The region committed for a piece by `subdivide_region_new`. -/
def newPieceRegion (axis : Axis) (pmin pmax : Vec3)
    (it : ℕ × ℚ × ℚ × ℚ) : Region3 :=
  regionFromCorners
    (setA pmin axis (roundTo 9 (getA pmin axis + it.2.1)))
    (setA pmax axis (roundTo 9 (getA pmin axis + it.2.2.1)))

/-- The length `subdivide_region_new` tests for a piece. -/
def newPieceLength (pminA : ℚ) (it : ℕ × ℚ × ℚ × ℚ) : ℚ :=
  roundTo 9 (pminA + it.2.2.1) - roundTo 9 (pminA + it.2.1)

/-- Whether `subdivide_region_new`'s discretisation test rejects a
piece. -/
def newPieceFails (cellA tol pminA : ℚ)
    (it : ℕ × ℚ × ℚ × ℚ) : Bool :=
  newCheckFails (newPieceLength pminA it) cellA tol

/-- Last-wins lookup across a sequence of dicts: the value of `k` in the
latest dict that contains `k`. -/
def lastLookup (ds : List (List (String × ℚ))) (k : String) : Option ℚ :=
  ds.foldl (fun acc d => (dictLookup d k).orElse (fun _ => acc)) none

/-- The keys written by the adjacent-pair walk of
`add_inter_subregion_values`, in write order. -/
def pairWalkKeys : List String → List String
  | a :: b :: rest => a :: (a ++ ":" ++ b) :: (b ++ ":" ++ a) :: pairWalkKeys (b :: rest)
  | _ => []

/-- The entries written by the adjacent-pair walk, in write order. -/
def pairWalkEntries (merged : List (String × ℚ)) (precision : ℕ) :
    List String → List (String × ℚ)
  | a :: b :: rest =>
    (a, (dictLookup merged a).getD 0) ::
    (a ++ ":" ++ b,
      roundTo precision
        (((dictLookup merged a).getD 0 + (dictLookup merged b).getD 0) / 2)) ::
    (b ++ ":" ++ a,
      roundTo precision
        (((dictLookup merged a).getD 0 + (dictLookup merged b).getD 0) / 2)) ::
    pairWalkEntries merged precision (b :: rest)
  | _ => []

/-- Every key written by `add_inter_subregion_values`, in write order:
the two left end caps, the pair walk, the last self-coupling, and the two
right end caps. -/
def couplingKeys (keys : List String) : List String :=
  match keys with
  | [] => []
  | first :: rest =>
    let lastK := List.getLastD (first :: rest) first
    ("entire:" ++ first) :: (first ++ ":entire") ::
      (pairWalkKeys (first :: rest) ++ [lastK, lastK ++ ":entire", "entire:" ++ lastK])

/-! ## Claim theorems -/

/-- C1: `CompositeAlpha` / `CompositeFieldStrength` built from a profile
list and a bulk value return, at every position, the value of the first
profile (in list order) that evaluates to a non-`None` value, and the
bulk value when every profile returns `None`; evaluation therefore always
yields a defined value.  In particular, with the region-gated profiles
`[RegionGated(R1, 5.0), RegionGated(R2, 9.0)]` and bulk `1.0`, a point in
both `R1` and `R2` evaluates to `5.0` and a point in neither region
evaluates to `1.0`. -/
theorem claim1_composite_first_match :
    (∀ (profiles : List (Vec3 → Option ℚ)) (alpha_bulk : ℚ) (pos : Vec3),
      compositeAlpha profiles alpha_bulk pos =
        (profiles.findSome? (fun prof => prof pos)).getD alpha_bulk) ∧
    (∀ (profiles : List (Vec3 → Option Vec3)) (bulk : Vec3) (pos : Vec3),
      compositeFieldStrength profiles bulk pos =
        (profiles.findSome? (fun prof => prof pos)).getD bulk) ∧
    (memRegion ⟨3/2, 3/2, 3/2⟩ ⟨⟨0,0,0⟩, ⟨2,2,2⟩⟩ = true ∧
     memRegion ⟨3/2, 3/2, 3/2⟩ ⟨⟨1,1,1⟩, ⟨3,3,3⟩⟩ = true ∧
     compositeAlpha [drivenRegionAlpha ⟨⟨0,0,0⟩, ⟨2,2,2⟩⟩ 5,
       drivenRegionAlpha ⟨⟨1,1,1⟩, ⟨3,3,3⟩⟩ 9] 1 ⟨3/2, 3/2, 3/2⟩ = 5) ∧
    (memRegion ⟨10,10,10⟩ ⟨⟨0,0,0⟩, ⟨2,2,2⟩⟩ = false ∧
     memRegion ⟨10,10,10⟩ ⟨⟨1,1,1⟩, ⟨3,3,3⟩⟩ = false ∧
     compositeAlpha [drivenRegionAlpha ⟨⟨0,0,0⟩, ⟨2,2,2⟩⟩ 5,
       drivenRegionAlpha ⟨⟨1,1,1⟩, ⟨3,3,3⟩⟩ 9] 1 ⟨10,10,10⟩ = 1) := by
  refine ⟨?_, ?_, by decide, by decide⟩
  · intro profiles b pos
    induction profiles with
    | nil => rfl
    | cons hd tl ih =>
      cases hpd : hd pos with
      | none => simpa [compositeAlpha, List.findSome?, hpd] using ih
      | some v => simp [compositeAlpha, List.findSome?, hpd]
  · intro profiles b pos
    induction profiles with
    | nil => rfl
    | cons hd tl ih =>
      cases hpd : hd pos with
      | none => simpa [compositeFieldStrength, List.findSome?, hpd] using ih
      | some v => simp [compositeFieldStrength, List.findSome?, hpd]

/-- C8: the linear absorbing ramp (`AbsorbingLinearAlpha`,
`reverse=false`) with edge width `w > 0` returns, at an in-region
position within distance `d ≤ w` of the governing face (the `pmin` face
when `dL ≤ w`, otherwise the `pmax` face), the value
`1.0 - (1.0 - v_bulk) * (d / w)` — hence exactly `1.0` at the face and
exactly `v_bulk` at depth `w` — returns `None` at in-region positions
farther than `w` from both faces, and returns `None` outside the
region. -/
theorem claim8_absorbing_linear_ramp (region : Region3)
    (w alpha_bulk : ℚ) (pos : Vec3) (hw : 0 < w) :
    (memRegion pos region = false →
      absorbingLinearAlpha region w alpha_bulk false pos = none) ∧
    (memRegion pos region = true → pos.x - region.pmin.x ≤ w →
      absorbingLinearAlpha region w alpha_bulk false pos =
        some (1 - (1 - alpha_bulk) * ((pos.x - region.pmin.x) / w))) ∧
    (memRegion pos region = true → w < pos.x - region.pmin.x →
      region.pmax.x - pos.x ≤ w →
      absorbingLinearAlpha region w alpha_bulk false pos =
        some (1 - (1 - alpha_bulk) * ((region.pmax.x - pos.x) / w))) ∧
    (memRegion pos region = true → w < pos.x - region.pmin.x →
      w < region.pmax.x - pos.x →
      absorbingLinearAlpha region w alpha_bulk false pos = none) ∧
    (memRegion pos region = true → pos.x - region.pmin.x = 0 →
      absorbingLinearAlpha region w alpha_bulk false pos = some 1) ∧
    (memRegion pos region = true → pos.x - region.pmin.x = w →
      absorbingLinearAlpha region w alpha_bulk false pos =
        some alpha_bulk) := by
  refine ⟨?_, ?_, ?_, ?_, ?_, ?_⟩
  · intro hmem
    simp [absorbingLinearAlpha, hmem]
  · intro hmem hdl
    simp [absorbingLinearAlpha, hmem, hdl]
  · intro hmem hdl hdr
    simp [absorbingLinearAlpha, hmem, not_le.mpr hdl, hdr]
  · intro hmem hdl hdr
    simp [absorbingLinearAlpha, hmem, not_le.mpr hdl, not_le.mpr hdr]
  · intro hmem hdl
    simp [absorbingLinearAlpha, hmem, hdl, le_of_lt hw]
  · intro hmem hdl
    have h2 : absorbingLinearAlpha region w alpha_bulk false pos =
        some (1 - (1 - alpha_bulk) * ((pos.x - region.pmin.x) / w)) := by
      simp [absorbingLinearAlpha, hmem, le_of_eq hdl]
    rw [h2, hdl, div_self (ne_of_gt hw)]
    norm_num

/-- C8 witness: concrete instantiation — region `[0,10]×[0,1]×[0,1]`,
`w = 2`, `v_bulk = 1/10`, position `x = 1` (depth 1 from the left face)
gives `1 - (9/10)·(1/2) = 11/20`; the face point `x = 0` gives `1`; the
depth-`w` point `x = 2` gives `1/10`; the interior point `x = 5` gives
`None`; the outside point `x = 20` gives `None`. -/
theorem claim8_witness :
    absorbingLinearAlpha ⟨⟨0,0,0⟩, ⟨10,1,1⟩⟩ 2 (1/10) false ⟨1, 0, 0⟩ =
      some (1 - (1 - 1/10) * ((1 - 0) / 2)) ∧
    absorbingLinearAlpha ⟨⟨0,0,0⟩, ⟨10,1,1⟩⟩ 2 (1/10) false ⟨0, 0, 0⟩ =
      some 1 ∧
    absorbingLinearAlpha ⟨⟨0,0,0⟩, ⟨10,1,1⟩⟩ 2 (1/10) false ⟨2, 0, 0⟩ =
      some (1/10) ∧
    absorbingLinearAlpha ⟨⟨0,0,0⟩, ⟨10,1,1⟩⟩ 2 (1/10) false ⟨5, 0, 0⟩ =
      none ∧
    absorbingLinearAlpha ⟨⟨0,0,0⟩, ⟨10,1,1⟩⟩ 2 (1/10) false ⟨20, 0, 0⟩ =
      none := by
  have h := claim8_absorbing_linear_ramp ⟨⟨0,0,0⟩, ⟨10,1,1⟩⟩ 2 (1/10)
  refine ⟨?_, ?_, ?_, ?_, ?_⟩
  · exact (h ⟨1, 0, 0⟩ (by norm_num)).2.1 (by decide) (by norm_num)
  · exact (h ⟨0, 0, 0⟩ (by norm_num)).2.2.2.2.1 (by decide) (by norm_num)
  · exact (h ⟨2, 0, 0⟩ (by norm_num)).2.2.2.2.2 (by decide) (by norm_num)
  · exact (h ⟨5, 0, 0⟩ (by norm_num)).2.2.2.1 (by decide) (by norm_num) (by norm_num)
  · exact (h ⟨20, 0, 0⟩ (by norm_num)).1 (by decide)

/-- C10: for every absorbing ramp variant (Linear, Exponential, Tanh)
and every in-region position whose distance `dL` from the `pmin` face
along the primary axis satisfies `dL ≤ w`, the returned value is the
left-face ramp value computed from `dL` — even when the position is also
within distance `w` of the `pmax` face; the right-face branch is reached
only when `dL > w`. -/
theorem claim10_left_face_priority (region : Region3)
    (w alpha_bulk log_bulk k : ℚ) (reverse : Bool) (ex th : ℚ → ℚ)
    (pos : Vec3) (hmem : memRegion pos region = true)
    (hdl : pos.x - region.pmin.x ≤ w) :
    absorbingLinearAlpha region w alpha_bulk reverse pos =
      some (if reverse
        then alpha_bulk + (1 - alpha_bulk) * ((pos.x - region.pmin.x) / w)
        else 1 - (1 - alpha_bulk) * ((pos.x - region.pmin.x) / w)) ∧
    absorbingExponentialAlpha region w log_bulk reverse ex pos =
      some (if reverse
        then ex (log_bulk * (1 - (pos.x - region.pmin.x) / w))
        else ex (log_bulk * ((pos.x - region.pmin.x) / w))) ∧
    absorbingTanhAlpha region w alpha_bulk k reverse th pos =
      some (tanhMix alpha_bulk k reverse th ((pos.x - region.pmin.x) / w)) := by
  cases reverse with
  | false =>
    refine ⟨?_, ?_, ?_⟩ <;>
      simp [absorbingLinearAlpha, absorbingExponentialAlpha,
        absorbingTanhAlpha, hmem, hdl]
  | true =>
    refine ⟨?_, ?_, ?_⟩ <;>
      simp [absorbingLinearAlpha, absorbingExponentialAlpha,
        absorbingTanhAlpha, hmem, hdl]

/-- C10 witness: region `[0,3]` on x with `w = 2`, position `x = 1`:
the position is within `w` of both faces (`dL = 1 ≤ 2`, `dR = 2 ≤ 2`),
and all three variants return the left-face value computed from
`dL/w = 1/2` (with `ex` and `th` instantiated to concrete rational
functions). -/
theorem claim10_witness :
    absorbingLinearAlpha ⟨⟨0,0,0⟩, ⟨3,1,1⟩⟩ 2 (1/10) false ⟨1, 0, 0⟩ =
      some (1 - (1 - 1/10) * ((1 - 0) / 2)) ∧
    absorbingExponentialAlpha ⟨⟨0,0,0⟩, ⟨3,1,1⟩⟩ 2 (-7) false
      (fun q => q + 100) ⟨1, 0, 0⟩ = some ((-7) * ((1 - 0) / 2) + 100) ∧
    absorbingTanhAlpha ⟨⟨0,0,0⟩, ⟨3,1,1⟩⟩ 2 (1/10) 5 false
      (fun q => q / 3) ⟨1, 0, 0⟩ =
      some (tanhMix (1/10) 5 false (fun q => q / 3) ((1 - 0) / 2)) ∧
    ((3:ℚ) - 1 ≤ 2) := by
  have h := claim10_left_face_priority ⟨⟨0,0,0⟩, ⟨3,1,1⟩⟩ 2 (1/10) (-7) 5
    false (fun q => q + 100) (fun q => q / 3) ⟨1, 0, 0⟩ (by decide)
    (by norm_num)
  exact ⟨h.1, h.2.1, h.2.2, by norm_num⟩

/-- C3 (for the `region_utils.py` implementation): with
`is_scale_absolute = true` the scaling factor is
`round(scale_amount / cell[axis], 9)` — calling with the absolute amount
is identical to calling with `is_scale_absolute = false` and the
pre-rounded cell count — and consequently an absolute amount
`k * cell[axis]` (with a positive cell size) produces the same region as
the relative amount `k` rounded to 9 decimals. -/
theorem claim3_absolute_scaling_factor (base_region : Region3)
    (cell : Vec3) (side : Face) (ax : Axis) (amount k : ℚ)
    (hc : 0 < getA cell ax) :
    create_scaled_region_from_base_region base_region amount cell side ax true =
      create_scaled_region_from_base_region base_region
        (roundTo 9 (amount / getA cell ax)) cell side ax false ∧
    create_scaled_region_from_base_region base_region
        (k * getA cell ax) cell side ax true =
      create_scaled_region_from_base_region base_region
        (roundTo 9 k) cell side ax false := by
  constructor
  · rfl
  · have hkc : k * getA cell ax / getA cell ax = k := by
      field_simp
    simp only [create_scaled_region_from_base_region, ROUND_PRECISION,
      if_true, if_false, Bool.false_eq_true]
    rw [hkc]

/-- C3 witness: base region `[0,2]×[0,1]×[0,1]`, cell `(1/2, 1, 1)`,
positive x-face, absolute amount `3 = 6 · (1/2)`: the absolute call
equals the relative call with `round(3 / (1/2), 9) = 6` cells, and the
absolute amount `4 · (1/2)` call equals the relative `round(4, 9)`
call. -/
theorem claim3_witness :
    create_scaled_region_from_base_region ⟨⟨0,0,0⟩, ⟨2,1,1⟩⟩ 3
        ⟨1/2, 1, 1⟩ Face.positive Axis.x true =
      create_scaled_region_from_base_region ⟨⟨0,0,0⟩, ⟨2,1,1⟩⟩
        (roundTo 9 (3 / (1/2))) ⟨1/2, 1, 1⟩ Face.positive Axis.x false ∧
    create_scaled_region_from_base_region ⟨⟨0,0,0⟩, ⟨2,1,1⟩⟩
        (4 * (1/2)) ⟨1/2, 1, 1⟩ Face.positive Axis.x true =
      create_scaled_region_from_base_region ⟨⟨0,0,0⟩, ⟨2,1,1⟩⟩
        (roundTo 9 4) ⟨1/2, 1, 1⟩ Face.positive Axis.x false := by
  have h := claim3_absolute_scaling_factor ⟨⟨0,0,0⟩, ⟨2,1,1⟩⟩
    ⟨1/2, 1, 1⟩ Face.positive Axis.x 3 4 (by norm_num [getA])
  exact ⟨h.1, h.2⟩

/-- C6: divergence of the legacy monolithic evaluator from the
composable one.  With driven region `[45,55]`, absorbing subregions
`[0,10]` and `[90,100]`, domain `[0,100]`, derived width `10` and bulk
value `1/2`: at `x = 5` — inside the left absorbing subregion and within
the ramp width of the domain's left face — `AlphaABC` returns the bulk
value `1/2` (because line 80 tests `xn not in dampingLhs or xn not in
dampingRhs`, which holds for every point of the two disjoint absorbing
subregions), whereas the composable evaluator built from
`[RegionGated(driven, 3/2), AbsorbingRamp(domain, 10, bulk,
Exponential)]` returns the exponential ramp value
`exp(log(alpha_bulk) * (dL/w)) = ex (log_bulk * (1/2))`, for every
exponential function `ex` and every value `log_bulk` of
`np.log(alpha_bulk)`. -/
theorem claim6_legacy_or_bug (log_bulk : ℚ) (ex : ℚ → ℚ) :
    alphaABC (1/2) (3/2) ⟨45, 55⟩ ⟨0, 10⟩ ⟨90, 100⟩ 0 100 10 1
        log_bulk ex 5 = 1/2 ∧
    memX 5 ⟨0, 10⟩ = true ∧
    memX 5 ⟨90, 100⟩ = false ∧
    compositeAlpha [drivenRegionAlpha ⟨⟨45,0,0⟩, ⟨55,1,1⟩⟩ (3/2),
        absorbingExponentialAlpha ⟨⟨0,0,0⟩, ⟨100,1,1⟩⟩ 10 log_bulk false ex]
        (1/2) ⟨5, 1/2, 1/2⟩ = ex (log_bulk * (1/2)) := by
  have hdriven : memX 5 ⟨45, 55⟩ = false := by decide
  have hlhs : memX 5 ⟨0, 10⟩ = true := by decide
  have hrhs : memX 5 ⟨90, 100⟩ = false := by decide
  have hgate : drivenRegionAlpha ⟨⟨45,0,0⟩, ⟨55,1,1⟩⟩ (3/2) ⟨5, 1/2, 1/2⟩ =
      none := by decide
  have hmem : memRegion ⟨5, 1/2, 1/2⟩ ⟨⟨0,0,0⟩, ⟨100,1,1⟩⟩ = true := by decide
  refine ⟨?_, hlhs, hrhs, ?_⟩
  · rw [alphaABC]
    simp [hdriven, hrhs]
  · rw [compositeAlpha]
    rw [hgate]
    rw [compositeAlpha]
    rw [absorbingExponentialAlpha]
    simp only [hmem, Bool.not_true, Bool.false_eq_true, if_false]
    norm_num

/-- C2 counterexample: `subdivide_region` over parent `[0,3]×[0,1]×[0,1]`
with cell `(1,1,1)`, `compatible_discretisation = true` and partition
distances `[1, 5/2]`: piece 1 (length `3/2`) fails the discretisation
check and the operation aborts with an error naming piece 1 — but the
caller's container now holds the already-committed piece 0
(`"main_sub0"`), so it is not unchanged on error and the operation is
not all-or-nothing. -/
theorem claim2_counterexample :
    (subdivide_region
        [("main", ⟨"main", ⟨0,0,0⟩, ⟨3,1,1⟩, some ⟨1,1,1⟩⟩)]
        ⟨"main", ⟨0,0,0⟩, ⟨3,1,1⟩, some ⟨1,1,1⟩⟩ 0 1 true none none
        none (some [1, 5/2]) Axis.x false "main" (1/1000000)).2.2 =
      some (SubdivideError.discretisationNamed "main_sub" 1 Axis.x) ∧
    (subdivide_region
        [("main", ⟨"main", ⟨0,0,0⟩, ⟨3,1,1⟩, some ⟨1,1,1⟩⟩)]
        ⟨"main", ⟨0,0,0⟩, ⟨3,1,1⟩, some ⟨1,1,1⟩⟩ 0 1 true none none
        none (some [1, 5/2]) Axis.x false "main" (1/1000000)).1 ≠
      [("main", ⟨"main", ⟨0,0,0⟩, ⟨3,1,1⟩, some ⟨1,1,1⟩⟩)] ∧
    dictLookup (subdivide_region
        [("main", ⟨"main", ⟨0,0,0⟩, ⟨3,1,1⟩, some ⟨1,1,1⟩⟩)]
        ⟨"main", ⟨0,0,0⟩, ⟨3,1,1⟩, some ⟨1,1,1⟩⟩ 0 1 true none none
        none (some [1, 5/2]) Axis.x false "main" (1/1000000)).1
        "main_sub0" =
      some ⟨"main_sub0", ⟨0,0,0⟩, ⟨1,1,1⟩, none⟩ := by
  refine ⟨by decide, by decide, by decide⟩

/-- C4 counterexample: `subdivide_region` with `value_min = 0`,
`value_max = 1`, `N = 4` returns `0.3333` — `round(1/3, 4)` — for the
second piece, not the exact `linspace` value `1/3`. -/
theorem claim4_counterexample :
    dictLookup (subdivide_region
        [("main", ⟨"main", ⟨0,0,0⟩, ⟨4,1,1⟩, some ⟨1,1,1⟩⟩)]
        ⟨"main", ⟨0,0,0⟩, ⟨4,1,1⟩, some ⟨1,1,1⟩⟩ 0 1 true none none
        (some 4) none Axis.x true "main" (1/1000000)).2.1 "main_sub1" =
      some (3333/10000) ∧
    linspace 0 1 4 = [0, 1/3, 2/3, 1] ∧
    (3333/10000 : ℚ) ≠ 1/3 := by
  refine ⟨by decide, by decide, by decide⟩

/-- C7 counterexample: with piece length `100.00005`, cell `1` and the
default tolerance `1e-6`, the claimed check `|ratio - round(ratio)| > tol`
fires (`5e-5 > 1e-6`), yet `subdivide_region` succeeds without error,
because its test is `np.isclose(ratio, round(ratio), atol=tol)` whose
default relative tolerance `rtol = 1e-5` contributes
`1e-5 · 100 = 1e-3` of slack. -/
theorem claim7_counterexample :
    |(2000001/20000 : ℚ) / 1 - (nearestInt ((2000001/20000 : ℚ) / 1) : ℚ)| >
      discretisation_tol_default ∧
    sdrCheckFails (2000001/20000) 1 discretisation_tol_default = false ∧
    newCheckFails (2000001/20000) 1 discretisation_tol_default = true ∧
    (subdivide_region
        [("main", ⟨"main", ⟨0,0,0⟩, ⟨2000001/20000,1,1⟩, some ⟨1,1,1⟩⟩)]
        ⟨"main", ⟨0,0,0⟩, ⟨2000001/20000,1,1⟩, some ⟨1,1,1⟩⟩ 0 1 true
        none none (some 1) none Axis.x false "main"
        discretisation_tol_default).2.2 = none := by
  refine ⟨by decide, by decide, by decide, by decide⟩

/-- C7 amended: `subdivide_region_new`'s inline check fails exactly when
`|length/cell - round(length/cell)| > tol`, as the claim states; but
`subdivide_region`'s inline check is `np.isclose` with numpy's default
relative tolerance, so it fails exactly when
`|length/cell - round(length/cell)| > tol + 1e-5 * |round(length/cell)|`.
The shared default tolerance is `1e-6`. -/
theorem claim7_amended :
    (∀ new_length cell_size tol : ℚ,
      newCheckFails new_length cell_size tol = true ↔
        |new_length / cell_size -
          (nearestInt (new_length / cell_size) : ℚ)| > tol) ∧
    (∀ new_length cell_size tol : ℚ,
      sdrCheckFails new_length cell_size tol = true ↔
        |new_length / cell_size -
            (nearestInt (new_length / cell_size) : ℚ)| >
          tol + (1/100000) * |(nearestInt (new_length / cell_size) : ℚ)|) ∧
    discretisation_tol_default = 1/1000000 := by
  refine ⟨?_, ?_, rfl⟩
  · intro len cell tol
    simp [newCheckFails]
  · intro len cell tol
    simp [sdrCheckFails, isClose, not_le]

/-- C7 witness: the amended characterisations applied at the concrete
ratio `100.00005` with the default tolerance. -/
theorem claim7_witness :
    newCheckFails (2000001/20000) 1 (1/1000000) = true ∧
    sdrCheckFails (2000001/20000) 1 (1/1000000) = false := by
  constructor
  · exact (claim7_amended.1 (2000001/20000) 1 (1/1000000)).mpr (by decide)
  · have h := claim7_amended.2.1 (2000001/20000) 1 (1/1000000)
    revert h
    decide

/-! ## Helper lemmas for the loop characterisations -/

/-- Reading back the component just set. -/
theorem getA_setA (v : Vec3) (a : Axis) (q : ℚ) : getA (setA v a q) a = q := by
  cases a <;> rfl

/-- A key absent from the key list makes `List.any` false. -/
theorem any_key_eq_false {α : Type} (m : List (String × α)) (k : String)
    (h : ¬ k ∈ m.map Prod.fst) :
    (m.any fun kv => kv.1 = k) = false := by
  rw [List.any_eq_false]
  intro kv hkv
  simp only [decide_eq_true_eq]
  intro heq
  exact h (List.mem_map.mpr ⟨kv, hkv, heq⟩)

/-- Assigning a fresh key to a dict appends the entry. -/
theorem dictInsert_fresh {α : Type} (m : List (String × α)) (k : String)
    (v : α) (h : ¬ k ∈ m.map Prod.fst) :
    dictInsert m k v = m ++ [(k, v)] := by
  rw [dictInsert, any_key_eq_false m k h]
  simp

/-- `add_subregion` with a fresh name appends the entry. -/
theorem add_subregion_fresh (regs : RegionsList) (sub : SubRegionData)
    (h : ¬ sub.name ∈ regs.map Prod.fst) :
    add_subregion regs sub = Except.ok (regs ++ [(sub.name, sub)]) := by
  rw [add_subregion, any_key_eq_false regs sub.name h]
  simp

/-- When every piece passes the (possibly disabled) discretisation check
and all generated names are fresh, the `subdivide_region` loop commits
every piece in order and returns no error. -/
theorem sdrLoop_all_pass (root : String) (axis : Axis) (checkOn : Bool)
    (cellA tol : ℚ) (pmin pmax : Vec3) :
    ∀ (l : List (ℕ × ℚ × ℚ × ℚ)) (regs : RegionsList)
      (vd : List (String × ℚ)),
      (∀ it ∈ l, checkOn = true →
        sdrPieceFails cellA tol (getA pmin axis) it = false) →
      (regs.map Prod.fst ++ l.map (sdrPieceName root)).Nodup →
      (vd.map Prod.fst ++ l.map (sdrPieceName root)).Nodup →
      sdrLoop root axis checkOn cellA tol pmin pmax l regs vd =
        (regs ++ l.map (fun j =>
            (sdrPieceName root j, sdrPieceSub root axis pmin pmax j)),
         vd ++ l.map (fun j => (sdrPieceName root j, roundTo 4 j.2.2.2)),
         none)
  | [], regs, vd, _, _, _ => by simp [sdrLoop]
  | (i, d0, d1, v) :: rest, regs, vd, hpass, hfr, hfv => by
    have hname : ¬ sdrPieceName root (i, d0, d1, v) ∈ regs.map Prod.fst := by
      intro hmem
      exact (List.nodup_append.mp hfr).2.2 hmem (by simp)
    have hnamev : ¬ sdrPieceName root (i, d0, d1, v) ∈ vd.map Prod.fst := by
      intro hmem
      exact (List.nodup_append.mp hfv).2.2 hmem (by simp)
    have hcheck : (checkOn &&
        sdrCheckFails
          (getA (setA pmax axis (roundTo 10 (getA pmin axis + d1))) axis -
            getA (setA pmin axis (roundTo 10 (getA pmin axis + d0))) axis)
          cellA tol) = false := by
      cases hco : checkOn with
      | false => simp
      | true =>
        have := hpass (i, d0, d1, v) (by simp) hco
        simp only [getA_setA, Bool.true_and]
        simpa [sdrPieceFails] using this
    have e1 : sdrPieceName root (i, d0, d1, v) = root ++ toString i := rfl
    rw [e1] at hname hnamev
    rw [sdrLoop]
    rw [hcheck]
    simp only [Bool.false_eq_true, if_false]
    rw [show add_subregion regs
        ⟨root ++ toString i, setA pmin axis (roundTo 10 (getA pmin axis + d0)),
         setA pmax axis (roundTo 10 (getA pmin axis + d1)), none⟩ =
        Except.ok (regs ++ [(root ++ toString i,
          ⟨root ++ toString i, setA pmin axis (roundTo 10 (getA pmin axis + d0)),
           setA pmax axis (roundTo 10 (getA pmin axis + d1)), none⟩)]) from
      add_subregion_fresh _ _ hname]
    rw [dictInsert_fresh _ _ _ hnamev]
    have IH := sdrLoop_all_pass root axis checkOn cellA tol pmin pmax rest
      (regs ++ [(root ++ toString i,
        ⟨root ++ toString i, setA pmin axis (roundTo 10 (getA pmin axis + d0)),
         setA pmax axis (roundTo 10 (getA pmin axis + d1)), none⟩)])
      (vd ++ [(root ++ toString i, roundTo 4 v)])
      (fun it hit hco => hpass it (by simp [hit]) hco)
      (by
        rw [List.map_append, List.append_assoc]
        simpa [sdrPieceName] using hfr)
      (by
        rw [List.map_append, List.append_assoc]
        simpa [sdrPieceName] using hfv)
    exact IH.trans (by simp [sdrPieceName, sdrPieceSub, List.append_assoc])

/-- When the check is enabled, every piece before `bad` passes, `bad`
fails, and the names used so far are fresh, the `subdivide_region` loop
commits exactly the pieces before `bad` and stops with the error naming
`bad`'s root and index. -/
theorem sdrLoop_first_fail (root : String) (axis : Axis)
    (cellA tol : ℚ) (pmin pmax : Vec3) :
    ∀ (l1 : List (ℕ × ℚ × ℚ × ℚ)) (bad : ℕ × ℚ × ℚ × ℚ)
      (l2 : List (ℕ × ℚ × ℚ × ℚ)) (regs : RegionsList)
      (vd : List (String × ℚ)),
      (∀ it ∈ l1, sdrPieceFails cellA tol (getA pmin axis) it = false) →
      sdrPieceFails cellA tol (getA pmin axis) bad = true →
      (regs.map Prod.fst ++ l1.map (sdrPieceName root)).Nodup →
      (vd.map Prod.fst ++ l1.map (sdrPieceName root)).Nodup →
      sdrLoop root axis true cellA tol pmin pmax (l1 ++ bad :: l2) regs vd =
        (regs ++ l1.map (fun j =>
            (sdrPieceName root j, sdrPieceSub root axis pmin pmax j)),
         vd ++ l1.map (fun j => (sdrPieceName root j, roundTo 4 j.2.2.2)),
         some (SubdivideError.discretisationNamed root bad.1 axis))
  | [], (i, d0, d1, v), l2, regs, vd, _, hfail, _, _ => by
    rw [List.nil_append, sdrLoop]
    have hcheck : (true &&
        sdrCheckFails
          (getA (setA pmax axis (roundTo 10 (getA pmin axis + d1))) axis -
            getA (setA pmin axis (roundTo 10 (getA pmin axis + d0))) axis)
          cellA tol) = true := by
      simp only [getA_setA, Bool.true_and]
      simpa [sdrPieceFails] using hfail
    rw [hcheck]
    simp
  | (i, d0, d1, v) :: rest, bad, l2, regs, vd, hpass, hfail, hfr, hfv => by
    have hname : ¬ (root ++ toString i) ∈ regs.map Prod.fst := by
      intro hmem
      exact (List.nodup_append.mp hfr).2.2 hmem (by simp [sdrPieceName])
    have hnamev : ¬ (root ++ toString i) ∈ vd.map Prod.fst := by
      intro hmem
      exact (List.nodup_append.mp hfv).2.2 hmem (by simp [sdrPieceName])
    have hcheck : (true &&
        sdrCheckFails
          (getA (setA pmax axis (roundTo 10 (getA pmin axis + d1))) axis -
            getA (setA pmin axis (roundTo 10 (getA pmin axis + d0))) axis)
          cellA tol) = false := by
      simp only [getA_setA, Bool.true_and]
      simpa [sdrPieceFails] using hpass (i, d0, d1, v) (by simp)
    rw [List.cons_append, sdrLoop, hcheck]
    simp only [Bool.false_eq_true, if_false]
    rw [show add_subregion regs
        ⟨root ++ toString i, setA pmin axis (roundTo 10 (getA pmin axis + d0)),
         setA pmax axis (roundTo 10 (getA pmin axis + d1)), none⟩ =
        Except.ok (regs ++ [(root ++ toString i,
          ⟨root ++ toString i, setA pmin axis (roundTo 10 (getA pmin axis + d0)),
           setA pmax axis (roundTo 10 (getA pmin axis + d1)), none⟩)]) from
      add_subregion_fresh _ _ hname]
    rw [dictInsert_fresh _ _ _ hnamev]
    have IH := sdrLoop_first_fail root axis cellA tol pmin pmax rest bad l2
      (regs ++ [(root ++ toString i,
        ⟨root ++ toString i, setA pmin axis (roundTo 10 (getA pmin axis + d0)),
         setA pmax axis (roundTo 10 (getA pmin axis + d1)), none⟩)])
      (vd ++ [(root ++ toString i, roundTo 4 v)])
      (fun it hit => hpass it (by simp [hit]))
      hfail
      (by
        rw [List.map_append, List.append_assoc]
        simpa [sdrPieceName] using hfr)
      (by
        rw [List.map_append, List.append_assoc]
        simpa [sdrPieceName] using hfv)
    exact IH.trans (by simp [sdrPieceName, sdrPieceSub, List.append_assoc])

/-- If every piece before `bad` passes the check and `bad` fails it, the
`subdivide_region_new` loop stops with the length-and-cell error —
regardless of the accumulated local state. -/
theorem newLoop_first_fail (root : String) (axis : Axis)
    (cellA tol : ℚ) (pmin pmax : Vec3) :
    ∀ (l1 : List (ℕ × ℚ × ℚ × ℚ)) (bad : ℕ × ℚ × ℚ × ℚ)
      (l2 : List (ℕ × ℚ × ℚ × ℚ)) (subs : List (String × Region3))
      (vd : List (String × ℚ)),
      (∀ it ∈ l1, newPieceFails cellA tol (getA pmin axis) it = false) →
      newPieceFails cellA tol (getA pmin axis) bad = true →
      (newLoop root axis cellA tol pmin pmax (l1 ++ bad :: l2) subs vd).2.2 =
        some (SubdivideError.discretisationLength
          (newPieceLength (getA pmin axis) bad) cellA)
  | [], (i, d0, d1, v), l2, subs, vd, _, hfail => by
    rw [List.nil_append, newLoop]
    have hcheck : newCheckFails
        (getA (setA pmax axis (roundTo 9 (getA pmin axis + d1))) axis -
          getA (setA pmin axis (roundTo 9 (getA pmin axis + d0))) axis)
        cellA tol = true := by
      simp only [getA_setA]
      simpa [newPieceFails, newPieceLength] using hfail
    rw [hcheck]
    simp [newPieceLength, getA_setA]
  | (i, d0, d1, v) :: rest, bad, l2, subs, vd, hpass, hfail => by
    have hcheck : newCheckFails
        (getA (setA pmax axis (roundTo 9 (getA pmin axis + d1))) axis -
          getA (setA pmin axis (roundTo 9 (getA pmin axis + d0))) axis)
        cellA tol = false := by
      simp only [getA_setA]
      simpa [newPieceFails, newPieceLength] using hpass (i, d0, d1, v) (by simp)
    rw [List.cons_append, newLoop, hcheck]
    simp only [Bool.false_eq_true, if_false]
    exact newLoop_first_fail root axis cellA tol pmin pmax rest bad l2 _ _
      (fun it hit => hpass it (by simp [hit])) hfail

/-- When every piece passes the check and the generated names are fresh
in the accumulated `value_dict`, the `subdivide_region_new` loop raises
no error and its `value_dict` holds exactly `float(interp[i])` for every
piece, in order. -/
theorem newLoop_all_pass (root : String) (axis : Axis)
    (cellA tol : ℚ) (pmin pmax : Vec3) :
    ∀ (l : List (ℕ × ℚ × ℚ × ℚ)) (subs : List (String × Region3))
      (vd : List (String × ℚ)),
      (∀ it ∈ l, newPieceFails cellA tol (getA pmin axis) it = false) →
      (vd.map Prod.fst ++ l.map (newPieceName root)).Nodup →
      (newLoop root axis cellA tol pmin pmax l subs vd).2.1 =
        vd ++ l.map (fun j => (newPieceName root j, j.2.2.2)) ∧
      (newLoop root axis cellA tol pmin pmax l subs vd).2.2 = none
  | [], subs, vd, _, _ => by simp [newLoop]
  | (i, d0, d1, v) :: rest, subs, vd, hpass, hfv => by
    have hnamev : ¬ (root ++ "_" ++ toString i) ∈ vd.map Prod.fst := by
      intro hmem
      exact (List.nodup_append.mp hfv).2.2 hmem (by simp [newPieceName])
    have hcheck : newCheckFails
        (getA (setA pmax axis (roundTo 9 (getA pmin axis + d1))) axis -
          getA (setA pmin axis (roundTo 9 (getA pmin axis + d0))) axis)
        cellA tol = false := by
      simp only [getA_setA]
      simpa [newPieceFails, newPieceLength] using hpass (i, d0, d1, v) (by simp)
    rw [newLoop, hcheck]
    simp only [Bool.false_eq_true, if_false]
    rw [dictInsert_fresh _ _ _ hnamev]
    have IH := newLoop_all_pass root axis cellA tol pmin pmax rest
      (dictInsert subs (root ++ "_" ++ toString i)
        (regionFromCorners (setA pmin axis (roundTo 9 (getA pmin axis + d0)))
          (setA pmax axis (roundTo 9 (getA pmin axis + d1)))))
      (vd ++ [(root ++ "_" ++ toString i, v)])
      (fun it hit => hpass it (by simp [hit]))
      (by
        rw [List.map_append, List.append_assoc]
        simpa [newPieceName] using hfv)
    refine ⟨IH.1.trans (by simp [newPieceName, List.append_assoc]), IH.2⟩

/-- The interpolation values carried by the piece list are exactly the
`interp` list when the boundary list is one element longer. -/
theorem mkPieces_values : ∀ (i : ℕ) (B V : List ℚ),
    B.length = V.length + 1 →
    (mkPieces i B V).map (fun j => j.2.2.2) = V
  | _, [], [], h => by simp at h
  | _, [], _ :: _, h => by simp at h
  | _, [_], [], _ => rfl
  | _, _ :: _ :: _, [], h => by simp at h
  | i, b0 :: b1 :: bs, v :: vs, h => by
    rw [mkPieces]
    simp only [List.map_cons]
    rw [mkPieces_values (i + 1) (b1 :: bs) vs (by simpa using h)]

/-- `np.linspace` produces `n` samples. -/
theorem linspace_length (a b : ℚ) (n : ℕ) : (linspace a b n).length = n := by
  rw [linspace]
  split_ifs with h1 h2
  · simp [h1]
  · simp [h2]
  · rw [List.length_map, List.length_range]

/-- `np.linspace(a, b, 1)` degenerates to `[a]`. -/
theorem linspace_single (a b : ℚ) : linspace a b 1 = [a] := by
  rw [linspace]
  norm_num

/-- The first `np.linspace` sample is exactly the start point. -/
theorem linspace_head (a b : ℚ) (n : ℕ) (h : 1 ≤ n) :
    (linspace a b n).head? = some a := by
  match n, h with
  | 1, _ => rw [linspace_single]; rfl
  | (m + 2), _ =>
    rw [linspace, if_neg (by omega), if_neg (by omega),
      List.range_succ_eq_map]
    simp only [List.map_cons, List.head?_cons, Nat.cast_zero]
    norm_num

/-- The last `np.linspace` sample is exactly the end point. -/
theorem linspace_getLast (a b : ℚ) (n : ℕ) (h : 2 ≤ n) :
    (linspace a b n).getLast? = some b := by
  match n, h with
  | (m + 2), _ =>
    rw [linspace, if_neg (by omega), if_neg (by omega), List.range_succ,
      List.map_append]
    simp only [List.map_cons, List.map_nil]
    rw [List.getLast?_concat]
    congr 1
    have hm : ((m : ℚ) + 1) ≠ 0 := by positivity
    push_cast
    rw [show ((m : ℚ) + 2 - 1) = (m : ℚ) + 1 from by ring]
    rw [mul_div_cancel_left₀ _ hm]
    ring

/-- Boundary lists produced by `subdivisionBoundaries` are nonempty. -/
theorem subdivisionBoundaries_length (nSub : Option ℕ)
    (pds : Option (List ℚ)) (len : ℚ) (B : List ℚ)
    (h : subdivisionBoundaries nSub pds len = Except.ok B) :
    1 ≤ B.length := by
  rw [subdivisionBoundaries.eq_def] at h
  match pds with
  | some ds =>
    simp only at h
    split_ifs at h with hr
    cases h
    simp
  | none =>
    match nSub with
    | some n =>
      simp only at h
      cases h
      rw [linspace_length]
      omega
    | none => simp at h

/-- C2 amended: when a produced sub-interval fails the enabled
discretisation check, the subdivision aborts with an error — but the two
implementations differ from the claim:
`subdivide_region`'s error names the failing piece's name root and index,
yet the pieces created before the failing one remain committed in the
caller's container (the returned container is the original plus exactly
the pieces preceding the first failing index — not unchanged);
`subdivide_region_new` is genuinely all-or-nothing (it returns only an
error, committing nothing to the caller's mesh), but its error reports
only the offending length and cell size, not the piece name. -/
theorem claim2_amended :
    (∀ (regions : RegionsList) (nm : String) (pmin pmax cell : Vec3)
      (vmin vmax : ℚ) (parent_name subregion_name_root : Option String)
      (nSub : Option ℕ) (pds : Option (List ℚ)) (axis : Axis)
      (remove_parent : Bool) (parent_key : String) (tol : ℚ)
      (root : String) (B : List ℚ)
      (l1 l2 : List (ℕ × ℚ × ℚ × ℚ)) (bad : ℕ × ℚ × ℚ × ℚ),
      root = subregion_name_root.getD ((parent_name.getD nm) ++ "_sub") →
      0 < cell.x + cell.y + cell.z →
      subdivisionBoundaries nSub pds (getA pmax axis - getA pmin axis) =
        Except.ok B →
      mkPieces 0 B (linspace vmin vmax (B.length - 1)) = l1 ++ bad :: l2 →
      (∀ j ∈ l1, sdrPieceFails (getA cell axis) tol (getA pmin axis) j = false) →
      sdrPieceFails (getA cell axis) tol (getA pmin axis) bad = true →
      (regions.map Prod.fst ++ l1.map (sdrPieceName root)).Nodup →
      subdivide_region regions ⟨nm, pmin, pmax, some cell⟩ vmin vmax true
          parent_name subregion_name_root nSub pds axis remove_parent
          parent_key tol =
        (regions ++ l1.map (fun j =>
            (sdrPieceName root j, sdrPieceSub root axis pmin pmax j)),
         l1.map (fun j => (sdrPieceName root j, roundTo 4 j.2.2.2)),
         some (SubdivideError.discretisationNamed root bad.1 axis))) ∧
    (∀ (mesh : MeshData) (region : Region3) (vmin vmax : ℚ)
      (nSub : Option ℕ) (pds : Option (List ℚ)) (axis : Axis)
      (name_root : String) (remove_parent : Bool) (tol : ℚ)
      (B : List ℚ) (m1 m2 : List (ℕ × ℚ × ℚ × ℚ)) (bad : ℕ × ℚ × ℚ × ℚ),
      subdivisionBoundaries nSub pds
          (getA region.pmax axis - getA region.pmin axis) = Except.ok B →
      mkPieces 0 B (linspace vmin vmax (B.length - 1)) = m1 ++ bad :: m2 →
      (∀ j ∈ m1, newPieceFails (getA mesh.cell axis) tol
        (getA region.pmin axis) j = false) →
      newPieceFails (getA mesh.cell axis) tol (getA region.pmin axis) bad =
        true →
      subdivide_region_new mesh region vmin vmax nSub pds axis name_root
          remove_parent tol =
        Except.error (SubdivideError.discretisationLength
          (newPieceLength (getA region.pmin axis) bad)
          (getA mesh.cell axis))) := by
  constructor
  · intro regions nm pmin pmax cell vmin vmax parent_name subregion_name_root
      nSub pds axis remove_parent parent_key tol root B l1 l2 bad
      hroot hcell hB hsplit hpass hfail hfresh
    have hca : cellAvailable (some cell) = true := by
      simp [cellAvailable, hcell]
    have hloop := sdrLoop_first_fail root axis (getA cell axis) tol pmin pmax
      l1 bad l2 regions [] hpass hfail hfresh
      (by simpa using (List.nodup_append.mp hfresh).2.1)
    rw [subdivide_region]
    simp only [hB, hca, Bool.and_true, Option.getD_some]
    rw [show cellAlong (some cell) axis = getA cell axis from rfl]
    rw [← hroot, hsplit, hloop]
    simp
  · intro mesh region vmin vmax nSub pds axis name_root remove_parent tol
      B m1 m2 bad hB hsplit hpass hfail
    have hloop := newLoop_first_fail name_root axis (getA mesh.cell axis) tol
      region.pmin region.pmax m1 bad m2
      (if remove_parent then
        mesh.subregions.filter (fun kv => ¬ kv.2 = region)
       else mesh.subregions) [] hpass hfail
    rw [subdivide_region_new]
    simp only [hB]
    rw [← hsplit] at hloop
    rw [hloop]

/-- C2 amended, witnessed at the counterexample input: `subdivide_region`
aborts naming piece 1 with piece 0 committed; `subdivide_region_new` on
the same geometry returns only the length-and-cell error. -/
theorem claim2_witness :
    subdivide_region [("main", ⟨"main", ⟨0,0,0⟩, ⟨3,1,1⟩, some ⟨1,1,1⟩⟩)]
        ⟨"main", ⟨0,0,0⟩, ⟨3,1,1⟩, some ⟨1,1,1⟩⟩ 0 1 true none none
        none (some [1, 5/2]) Axis.x false "main" (1/1000000) =
      ([("main", ⟨"main", ⟨0,0,0⟩, ⟨3,1,1⟩, some ⟨1,1,1⟩⟩),
        ("main_sub0", ⟨"main_sub0", ⟨0,0,0⟩, ⟨1,1,1⟩, none⟩)],
       [("main_sub0", 0)],
       some (SubdivideError.discretisationNamed "main_sub" 1 Axis.x)) ∧
    subdivide_region_new
        ⟨⟨⟨0,0,0⟩, ⟨3,1,1⟩⟩, ⟨1,1,1⟩, [("main", ⟨⟨0,0,0⟩, ⟨3,1,1⟩⟩)]⟩
        ⟨⟨0,0,0⟩, ⟨3,1,1⟩⟩ 0 1 none (some [1, 5/2]) Axis.x "sub" true
        (1/1000000) =
      Except.error (SubdivideError.discretisationLength (3/2) 1) := by
  constructor
  · have h := claim2_amended.1
      [("main", ⟨"main", ⟨0,0,0⟩, ⟨3,1,1⟩, some ⟨1,1,1⟩⟩)]
      "main" ⟨0,0,0⟩ ⟨3,1,1⟩ ⟨1,1,1⟩ 0 1 none none none (some [1, 5/2])
      Axis.x false "main" (1/1000000) "main_sub" [0, 1, 5/2, 3]
      [(0, 0, 1, 0)] [(2, 5/2, 3, 1)] (1, 1, 5/2, 1/2)
      (by decide) (by decide) (by rfl) (by decide) (by decide)
      (by decide) (by decide)
    exact h.trans (by decide)
  · have h := claim2_amended.2
      ⟨⟨⟨0,0,0⟩, ⟨3,1,1⟩⟩, ⟨1,1,1⟩, [("main", ⟨⟨0,0,0⟩, ⟨3,1,1⟩⟩)]⟩
      ⟨⟨0,0,0⟩, ⟨3,1,1⟩⟩ 0 1 none (some [1, 5/2]) Axis.x "sub" true
      (1/1000000) [0, 1, 5/2, 3] [(0, 0, 1, 0)] [(2, 5/2, 3, 1)]
      (1, 1, 5/2, 1/2)
      (by rfl) (by decide) (by decide) (by decide)
    exact h.trans (by rfl)

/-- C4 amended: on a successful subdivision into `N` pieces,
`subdivide_region` returns per-piece values
`round(linspace(value_min, value_max, N)[i], 4)` — `linspace` values
rounded to 4 decimal places — while `subdivide_region_new` returns
exactly `linspace(value_min, value_max, N)`; `linspace` itself yields
`value_min` as its first sample, `value_max` as its last, and `[value_min]`
for `N = 1`. -/
theorem claim4_amended :
    (∀ (regions : RegionsList) (nm : String) (pmin pmax : Vec3)
      (cellOpt : Option Vec3) (vmin vmax : ℚ) (compatible : Bool)
      (parent_name subregion_name_root : Option String)
      (nSub : Option ℕ) (pds : Option (List ℚ)) (axis : Axis)
      (remove_parent : Bool) (parent_key : String) (tol : ℚ)
      (root : String) (B : List ℚ) (pieces : List (ℕ × ℚ × ℚ × ℚ)),
      root = subregion_name_root.getD ((parent_name.getD nm) ++ "_sub") →
      subdivisionBoundaries nSub pds (getA pmax axis - getA pmin axis) =
        Except.ok B →
      mkPieces 0 B (linspace vmin vmax (B.length - 1)) = pieces →
      (∀ j ∈ pieces, sdrPieceFails (cellAlong cellOpt axis) tol
        (getA pmin axis) j = false) →
      (regions.map Prod.fst ++ pieces.map (sdrPieceName root)).Nodup →
      (subdivide_region regions ⟨nm, pmin, pmax, cellOpt⟩ vmin vmax
          compatible parent_name subregion_name_root nSub pds axis
          remove_parent parent_key tol).2.1 =
        pieces.map (fun j => (sdrPieceName root j, roundTo 4 j.2.2.2)) ∧
      ((subdivide_region regions ⟨nm, pmin, pmax, cellOpt⟩ vmin vmax
          compatible parent_name subregion_name_root nSub pds axis
          remove_parent parent_key tol).2.1).map Prod.snd =
        (linspace vmin vmax (B.length - 1)).map (roundTo 4)) ∧
    (∀ (mesh : MeshData) (region : Region3) (vmin vmax : ℚ)
      (nSub : Option ℕ) (pds : Option (List ℚ)) (axis : Axis)
      (name_root : String) (remove_parent : Bool) (tol : ℚ)
      (B : List ℚ) (pieces : List (ℕ × ℚ × ℚ × ℚ)),
      subdivisionBoundaries nSub pds
          (getA region.pmax axis - getA region.pmin axis) = Except.ok B →
      mkPieces 0 B (linspace vmin vmax (B.length - 1)) = pieces →
      (∀ j ∈ pieces, newPieceFails (getA mesh.cell axis) tol
        (getA region.pmin axis) j = false) →
      (pieces.map (newPieceName name_root)).Nodup →
      ∃ mesh2, subdivide_region_new mesh region vmin vmax nSub pds axis
          name_root remove_parent tol =
        Except.ok (mesh2,
          pieces.map (fun j => (newPieceName name_root j, j.2.2.2))) ∧
        (pieces.map (fun j => (newPieceName name_root j, j.2.2.2))).map
            Prod.snd =
          linspace vmin vmax (B.length - 1)) ∧
    (∀ (a b : ℚ) (n : ℕ),
      linspace a b 1 = [a] ∧
      (1 ≤ n → (linspace a b n).head? = some a) ∧
      (2 ≤ n → (linspace a b n).getLast? = some b)) := by
  refine ⟨?_, ?_, ?_⟩
  · intro regions nm pmin pmax cellOpt vmin vmax compatible parent_name
      subregion_name_root nSub pds axis remove_parent parent_key tol
      root B pieces hroot hB hpieces hpass hfresh
    have hB1 : 1 ≤ B.length := subdivisionBoundaries_length _ _ _ _ hB
    have hvals : pieces.map (fun j => j.2.2.2) =
        linspace vmin vmax (B.length - 1) := by
      rw [← hpieces]
      exact mkPieces_values 0 B _ (by rw [linspace_length]; omega)
    have hloop := sdrLoop_all_pass root axis
      (compatible && cellAvailable cellOpt)
      (cellAlong cellOpt axis) tol pmin pmax
      pieces regions []
      (fun it hit _ => hpass it hit) hfresh
      (by simpa using (List.nodup_append.mp hfresh).2.1)
    have hmain : (subdivide_region regions ⟨nm, pmin, pmax, cellOpt⟩ vmin
        vmax compatible parent_name subregion_name_root nSub pds axis
        remove_parent parent_key tol).2.1 =
        pieces.map (fun j => (sdrPieceName root j, roundTo 4 j.2.2.2)) := by
      rw [subdivide_region]
      simp only [hB, Option.getD_some]
      rw [← hroot, hpieces, hloop]
      simp only [List.nil_append]
      cases remove_parent with
      | false => simp
      | true =>
        cases hdel : delete_subregion (regions ++ pieces.map (fun j =>
            (sdrPieceName root j, sdrPieceSub root axis pmin pmax j)))
            parent_key with
        | ok regs2 => simp [hdel]
        | error m => simp [hdel]
    refine ⟨hmain, ?_⟩
    rw [hmain, ← hvals]
    simp
  · intro mesh region vmin vmax nSub pds axis name_root remove_parent tol
      B pieces hB hpieces hpass hfresh
    have hB1 : 1 ≤ B.length := subdivisionBoundaries_length _ _ _ _ hB
    have hvals : pieces.map (fun j => j.2.2.2) =
        linspace vmin vmax (B.length - 1) := by
      rw [← hpieces]
      exact mkPieces_values 0 B _ (by rw [linspace_length]; omega)
    have hloop := newLoop_all_pass name_root axis (getA mesh.cell axis) tol
      region.pmin region.pmax pieces
      (if remove_parent then
        mesh.subregions.filter (fun kv => ¬ kv.2 = region)
       else mesh.subregions) []
      hpass (by simpa using hfresh)
    refine ⟨⟨mesh.region, mesh.cell,
      (newLoop name_root axis (getA mesh.cell axis) tol region.pmin
        region.pmax pieces
        (if remove_parent then
          mesh.subregions.filter (fun kv => ¬ kv.2 = region)
         else mesh.subregions) []).1⟩, ?_, ?_⟩
    · rw [subdivide_region_new]
      simp only [hB]
      rw [hpieces, hloop.2]
      rw [show (newLoop name_root axis (getA mesh.cell axis) tol region.pmin
          region.pmax pieces
          (if remove_parent = true then
            List.filter (fun kv => decide ¬ kv.2 = region) mesh.subregions
           else mesh.subregions) []).2.1 =
          pieces.map (fun j => (newPieceName name_root j, j.2.2.2)) from
        (by simpa using hloop.1)]
    · rw [← hvals]
      simp
  · intro a b n
    exact ⟨linspace_single a b, linspace_head a b n, linspace_getLast a b n⟩

/-- C4 amended, witnessed: subdividing `[0,4]` into 4 pieces with values
0 to 1 gives `subdivide_region` values `[0, 0.3333, 0.6667, 1]` and
`subdivide_region_new` values `[0, 1/3, 2/3, 1]`; `linspace 0 1 1 = [0]`,
and `linspace 0 1 4` starts at `0` and ends at `1` exactly. -/
theorem claim4_witness :
    (subdivide_region [("main", ⟨"main", ⟨0,0,0⟩, ⟨4,1,1⟩, some ⟨1,1,1⟩⟩)]
        ⟨"main", ⟨0,0,0⟩, ⟨4,1,1⟩, some ⟨1,1,1⟩⟩ 0 1 true none none
        (some 4) none Axis.x true "main" (1/1000000)).2.1 =
      [("main_sub0", 0), ("main_sub1", 3333/10000),
       ("main_sub2", 6667/10000), ("main_sub3", 1)] ∧
    (∃ mesh2, subdivide_region_new
        ⟨⟨⟨0,0,0⟩, ⟨4,1,1⟩⟩, ⟨1,1,1⟩, [("main", ⟨⟨0,0,0⟩, ⟨4,1,1⟩⟩)]⟩
        ⟨⟨0,0,0⟩, ⟨4,1,1⟩⟩ 0 1 (some 4) none Axis.x "sub" true
        (1/1000000) =
      Except.ok (mesh2,
        [((0:ℕ), (0:ℚ), (1:ℚ), (0:ℚ)), (1, 1, 2, 1/3), (2, 2, 3, 2/3),
         (3, 3, 4, 1)].map
          (fun j => (newPieceName "sub" j, j.2.2.2))) ∧
      ([((0:ℕ), (0:ℚ), (1:ℚ), (0:ℚ)), (1, 1, 2, 1/3), (2, 2, 3, 2/3),
        (3, 3, 4, 1)].map
          (fun j => (newPieceName "sub" j, j.2.2.2))).map Prod.snd =
        linspace 0 1 ([(0:ℚ), 1, 2, 3, 4].length - 1)) ∧
    linspace 0 1 1 = [0] ∧
    (linspace 0 1 4).head? = some 0 ∧
    (linspace 0 1 4).getLast? = some 1 := by
  refine ⟨?_, ?_, ?_, ?_, ?_⟩
  · exact ((claim4_amended.1
      [("main", ⟨"main", ⟨0,0,0⟩, ⟨4,1,1⟩, some ⟨1,1,1⟩⟩)]
      "main" ⟨0,0,0⟩ ⟨4,1,1⟩ (some ⟨1,1,1⟩) 0 1 true none none
      (some 4) none Axis.x true "main" (1/1000000) "main_sub"
      [0, 1, 2, 3, 4]
      [(0, 0, 1, 0), (1, 1, 2, 1/3), (2, 2, 3, 2/3), (3, 3, 4, 1)]
      (by decide) (by rfl) (by decide) (by decide) (by decide)).1).trans
      (by decide)
  · exact claim4_amended.2.1
      ⟨⟨⟨0,0,0⟩, ⟨4,1,1⟩⟩, ⟨1,1,1⟩, [("main", ⟨⟨0,0,0⟩, ⟨4,1,1⟩⟩)]⟩
      ⟨⟨0,0,0⟩, ⟨4,1,1⟩⟩ 0 1 (some 4) none Axis.x "sub" true (1/1000000)
      [0, 1, 2, 3, 4]
      [(0, 0, 1, 0), (1, 1, 2, 1/3), (2, 2, 3, 2/3), (3, 3, 4, 1)]
      (by rfl) (by decide) (by decide) (by decide)
  · exact (claim4_amended.2.2 0 1 4).1
  · exact (claim4_amended.2.2 0 1 4).2.1 (by norm_num)
  · exact (claim4_amended.2.2 0 1 4).2.2 (by norm_num)

/-! ## Dict lemmas for the coupling-table claims -/

/-- `List.any` on the key test is membership of the key list. -/
theorem any_key_iff {α : Type} (m : List (String × α)) (k : String) :
    (m.any fun kv => kv.1 = k) = true ↔ k ∈ m.map Prod.fst := by
  rw [List.any_eq_true]
  constructor
  · rintro ⟨kv, hkv, he⟩
    exact List.mem_map.mpr ⟨kv, hkv, by simpa using he⟩
  · rintro h
    rcases List.mem_map.mp h with ⟨kv, hkv, he⟩
    exact ⟨kv, hkv, by simpa using he⟩

/-- Lookup in a concatenation: the left part wins. -/
theorem dictLookup_append {α : Type} (l1 l2 : List (String × α))
    (k : String) :
    dictLookup (l1 ++ l2) k =
      (dictLookup l1 k).orElse (fun _ => dictLookup l2 k) := by
  induction l1 with
  | nil => simp [dictLookup]
  | cons kv rest ih =>
    by_cases hk : kv.1 = k
    · simp [dictLookup, List.find?, hk]
    · rw [List.cons_append]
      rw [show dictLookup (kv :: (rest ++ l2)) k = dictLookup (rest ++ l2) k
          from by simp [dictLookup, List.find?, hk]]
      rw [show dictLookup (kv :: rest) k = dictLookup rest k
          from by simp [dictLookup, List.find?, hk]]
      exact ih

/-- A key outside the key list looks up to `none`. -/
theorem dictLookup_eq_none {α : Type} (m : List (String × α)) (k : String)
    (h : ¬ k ∈ m.map Prod.fst) : dictLookup m k = none := by
  induction m with
  | nil => rfl
  | cons kv rest ih =>
    have hk : ¬ kv.1 = k := fun he => h (by simp [← he])
    rw [show dictLookup (kv :: rest) k = dictLookup rest k
        from by simp [dictLookup, List.find?, hk]]
    exact ih (fun hm => h (by simp [hm]))

/-- A key of the list looks up to some value. -/
theorem dictLookup_isSome {α : Type} (m : List (String × α)) (k : String)
    (h : k ∈ m.map Prod.fst) : ∃ v, dictLookup m k = some v := by
  induction m with
  | nil => simp at h
  | cons kv rest ih =>
    by_cases hk : kv.1 = k
    · exact ⟨kv.2, by simp [dictLookup, List.find?, hk]⟩
    · have hmem : k ∈ rest.map Prod.fst := by
        rcases List.mem_map.mp h with ⟨kv2, hkv2, he⟩
        rcases List.mem_cons.mp hkv2 with h1 | h2
        · exact absurd (h1 ▸ he) hk
        · exact List.mem_map.mpr ⟨kv2, h2, he⟩
      rcases ih hmem with ⟨v, hv⟩
      refine ⟨v, ?_⟩
      rw [show dictLookup (kv :: rest) k = dictLookup rest k
          from by simp [dictLookup, List.find?, hk]]
      exact hv

/-- Lookup through the in-place replacement performed by `dictInsert` on
an existing key. -/
theorem dictLookup_map_replace {α : Type} (m : List (String × α))
    (k k' : String) (v : α) :
    dictLookup (m.map (fun kv => if kv.1 = k then (k, v) else kv)) k' =
      if k' = k then
        (if (m.any fun kv => kv.1 = k) then some v else none)
      else dictLookup m k' := by
  induction m with
  | nil => by_cases hk' : k' = k <;> simp [dictLookup, hk']
  | cons kv rest ih =>
    by_cases hkv : kv.1 = k
    · by_cases hk' : k' = k
      · simp [dictLookup, List.find?, hkv, hk']
      · have hne1 : ¬ k = k' := fun he => hk' he.symm
        have hne2 : ¬ kv.1 = k' := by
          rw [hkv]
          exact hne1
        rw [List.map_cons, if_pos hkv]
        rw [show dictLookup ((k, v) :: List.map (fun kv =>
            if kv.1 = k then (k, v) else kv) rest) k' =
            dictLookup (List.map (fun kv =>
              if kv.1 = k then (k, v) else kv) rest) k'
            from by simp [dictLookup, List.find?, hne1]]
        rw [show dictLookup (kv :: rest) k' = dictLookup rest k'
            from by simp [dictLookup, List.find?, hne2]]
        rw [ih, if_neg hk', if_neg hk']
    · by_cases hhit : kv.1 = k'
      · have hk' : ¬ k' = k := fun he => hkv (by rw [hhit, he])
        rw [List.map_cons, if_neg hkv]
        rw [show dictLookup (kv :: List.map (fun kv =>
            if kv.1 = k then (k, v) else kv) rest) k' = some kv.2
            from by simp [dictLookup, List.find?, hhit]]
        rw [if_neg hk']
        simp [dictLookup, List.find?, hhit]
      · rw [List.map_cons, if_neg hkv]
        rw [show dictLookup (kv :: List.map (fun kv =>
            if kv.1 = k then (k, v) else kv) rest) k' =
            dictLookup (List.map (fun kv =>
              if kv.1 = k then (k, v) else kv) rest) k'
            from by simp [dictLookup, List.find?, hhit]]
        rw [show dictLookup (kv :: rest) k' = dictLookup rest k'
            from by simp [dictLookup, List.find?, hhit]]
        rw [ih]
        by_cases hk' : k' = k
        · rw [if_pos hk', if_pos hk']
          rw [show ((kv :: rest).any fun kv => kv.1 = k) =
              (rest.any fun kv => kv.1 = k)
              from by simp [List.any_cons, hkv]]
        · rw [if_neg hk', if_neg hk']

/-- Dict assignment, observed through lookup. -/
theorem dictLookup_insert {α : Type} (m : List (String × α)) (k k' : String)
    (v : α) :
    dictLookup (dictInsert m k v) k' =
      if k' = k then some v else dictLookup m k' := by
  by_cases hc : (m.any fun kv => kv.1 = k) = true
  · rw [dictInsert, if_pos hc, dictLookup_map_replace, hc]
    by_cases hk' : k' = k <;> simp [hk']
  · rw [dictInsert, if_neg hc, dictLookup_append]
    have habs : ¬ k ∈ m.map Prod.fst := fun hm => hc ((any_key_iff m k).mpr hm)
    by_cases hk' : k' = k
    · rw [hk', dictLookup_eq_none m k habs, if_pos rfl]
      simp [dictLookup, List.find?]
    · rw [if_neg hk']
      have hne : ¬ k = k' := fun he => hk' he.symm
      rw [show dictLookup [(k, v)] k' = none
          from by simp [dictLookup, List.find?, hne]]
      cases dictLookup m k' <;> rfl

/-- `m.update(d)` observed through lookup: `d` wins where present
(requires `d` to have unique keys, as every Python dict does). -/
theorem dictLookup_update {α : Type} :
    ∀ (d m : List (String × α)) (k : String),
      (d.map Prod.fst).Nodup →
      dictLookup (dictUpdate m d) k =
        (dictLookup d k).orElse (fun _ => dictLookup m k)
  | [], m, k, _ => by simp [dictUpdate, dictLookup]
  | kv :: rest, m, k, hnd => by
    have hnd2 : (kv.1 :: rest.map Prod.fst).Nodup := by simpa using hnd
    rw [show dictUpdate m (kv :: rest) =
        dictUpdate (dictInsert m kv.1 kv.2) rest from rfl]
    rw [dictLookup_update rest _ k ((List.nodup_cons.mp hnd2).2)]
    by_cases hk : kv.1 = k
    · have hkr : ¬ k ∈ rest.map Prod.fst := by
        rw [← hk]
        exact (List.nodup_cons.mp hnd2).1
      rw [dictLookup_eq_none rest k hkr]
      rw [show dictLookup (kv :: rest) k = some kv.2
          from by simp [dictLookup, List.find?, hk]]
      rw [dictLookup_insert, if_pos hk.symm]
      rfl
    · rw [show dictLookup (kv :: rest) k = dictLookup rest k
          from by simp [dictLookup, List.find?, hk]]
      rw [dictLookup_insert, if_neg (fun he => hk he.symm)]

/-- Folding `dict.update` over a dict list, observed through lookup. -/
theorem dictLookup_foldl_update {α : Type} :
    ∀ (ds : List (List (String × α))) (m : List (String × α)) (k : String),
      (∀ d ∈ ds, (d.map Prod.fst).Nodup) →
      dictLookup (ds.foldl dictUpdate m) k =
        ds.foldl (fun acc d => (dictLookup d k).orElse (fun _ => acc))
          (dictLookup m k)
  | [], m, k, _ => rfl
  | d :: rest, m, k, hnd => by
    rw [List.foldl_cons, List.foldl_cons]
    rw [dictLookup_foldl_update rest (dictUpdate m d) k
      (fun d2 h2 => hnd d2 (by simp [h2]))]
    rw [dictLookup_update d m k (hnd d (by simp))]

/-- The merged dict of `add_inter_subregion_values` realises last-wins
lookup over the input dicts. -/
theorem dictLookup_mergeAll (ds : List (List (String × ℚ))) (k : String)
    (hnd : ∀ d ∈ ds, (d.map Prod.fst).Nodup) :
    dictLookup (dictMergeAll ds) k = lastLookup ds k := by
  rw [dictMergeAll, lastLookup, dictLookup_foldl_update ds [] k hnd]
  rfl

/-- The keys of the pair-walk entries are `pairWalkKeys`. -/
theorem pairWalkEntries_keys (merged : List (String × ℚ)) (precision : ℕ) :
    ∀ ks : List String,
      (pairWalkEntries merged precision ks).map Prod.fst = pairWalkKeys ks
  | [] => rfl
  | [_] => rfl
  | a :: b :: rest => by
    rw [pairWalkEntries, pairWalkKeys]
    simp only [List.map_cons]
    rw [pairWalkEntries_keys merged precision (b :: rest)]

/-- With all write targets fresh, the adjacent-pair walk appends its
entries to the accumulated dict. -/
theorem interLoop_append (merged : List (String × ℚ)) (precision : ℕ) :
    ∀ (ks : List String) (nd : List (String × ℚ)),
      (nd.map Prod.fst ++ pairWalkKeys ks).Nodup →
      interSubregionLoop merged precision ks nd =
        nd ++ pairWalkEntries merged precision ks
  | [], nd, _ => by simp [interSubregionLoop, pairWalkEntries]
  | [k], nd, _ => by simp [interSubregionLoop, pairWalkEntries]
  | a :: b :: rest, nd, hnd => by
    have hPW : pairWalkKeys (a :: b :: rest) =
        a :: (a ++ ":" ++ b) :: (b ++ ":" ++ a) :: pairWalkKeys (b :: rest) :=
      rfl
    have h2 : (a :: (a ++ ":" ++ b) :: (b ++ ":" ++ a) ::
        pairWalkKeys (b :: rest)).Nodup := by
      rw [← hPW]
      exact (List.nodup_append.mp hnd).2.1
    have hdisj := (List.nodup_append.mp hnd).2.2
    have hnd_a : ¬ a ∈ nd.map Prod.fst :=
      fun hm => hdisj hm (by rw [hPW]; exact List.mem_cons_self _ _)
    have hnd_ab : ¬ (a ++ ":" ++ b) ∈ nd.map Prod.fst :=
      fun hm => hdisj hm (by rw [hPW]; simp)
    have hnd_ba : ¬ (b ++ ":" ++ a) ∈ nd.map Prod.fst :=
      fun hm => hdisj hm (by rw [hPW]; simp)
    have hne_ab_a : ¬ (a ++ ":" ++ b) = a :=
      fun he => (List.nodup_cons.mp h2).1 (List.mem_cons.mpr (Or.inl he.symm))
    have hne_ba_a : ¬ (b ++ ":" ++ a) = a :=
      fun he => (List.nodup_cons.mp h2).1
        (List.mem_cons.mpr (Or.inr (List.mem_cons.mpr (Or.inl he.symm))))
    have hne_ba_ab : ¬ (b ++ ":" ++ a) = (a ++ ":" ++ b) :=
      fun he => (List.nodup_cons.mp (List.nodup_cons.mp h2).2).1
        (List.mem_cons.mpr (Or.inl he.symm))
    have hf1 : ¬ a ∈ nd.map Prod.fst := hnd_a
    have hf2 : ¬ (a ++ ":" ++ b) ∈
        ((nd ++ [(a, (dictLookup merged a).getD 0)]).map Prod.fst) := by
      simp only [List.map_append, List.map_cons, List.map_nil,
        List.mem_append, List.mem_cons, List.not_mem_nil, or_false]
      push_neg
      exact ⟨hnd_ab, hne_ab_a⟩
    have hf3 : ¬ (b ++ ":" ++ a) ∈
        (((nd ++ [(a, (dictLookup merged a).getD 0)]) ++
          [(a ++ ":" ++ b, roundTo precision
            (((dictLookup merged a).getD 0 +
              (dictLookup merged b).getD 0) / 2))]).map Prod.fst) := by
      simp only [List.map_append, List.map_cons, List.map_nil,
        List.mem_append, List.mem_cons, List.not_mem_nil, or_false]
      push_neg
      exact ⟨⟨hnd_ba, hne_ba_a⟩, hne_ba_ab⟩
    rw [interSubregionLoop]
    rw [dictInsert_fresh _ _ _ hf1]
    rw [dictInsert_fresh _ _ _ hf2]
    rw [dictInsert_fresh _ _ _ hf3]
    rw [interLoop_append merged precision (b :: rest)
      (((nd ++ [(a, (dictLookup merged a).getD 0)]) ++
        [(a ++ ":" ++ b, roundTo precision
          (((dictLookup merged a).getD 0 +
            (dictLookup merged b).getD 0) / 2))]) ++
        [(b ++ ":" ++ a, roundTo precision
          (((dictLookup merged a).getD 0 +
            (dictLookup merged b).getD 0) / 2))])
      (by
        simp only [List.map_append, List.map_cons, List.map_nil]
        rw [List.append_assoc, List.append_assoc, List.append_assoc]
        simp only [List.singleton_append, List.cons_append, List.nil_append]
        rw [hPW] at hnd
        exact hnd)]
    rw [pairWalkEntries]
    simp [List.append_assoc]

/-- Keys arising from an adjacent pair are among the pair-walk keys. -/
theorem pairWalkKeys_of_zip :
    ∀ (ks : List String) (a b : String),
      (a, b) ∈ ks.zip ks.tail →
      a ∈ pairWalkKeys ks ∧ (a ++ ":" ++ b) ∈ pairWalkKeys ks ∧
        (b ++ ":" ++ a) ∈ pairWalkKeys ks
  | [], _, _, h => by simp at h
  | [_], _, _, h => by simp at h
  | x :: y :: rest, a, b, h => by
    rw [show (x :: y :: rest).zip (x :: y :: rest).tail =
        (x, y) :: (y :: rest).zip (y :: rest).tail from rfl] at h
    rcases List.mem_cons.mp h with h1 | h1
    · obtain ⟨hx, hy⟩ : a = x ∧ b = y := Prod.mk.injEq .. ▸ h1
      subst hx
      subst hy
      refine ⟨by rw [pairWalkKeys]; simp, by rw [pairWalkKeys]; simp,
        by rw [pairWalkKeys]; simp⟩
    · have hr := pairWalkKeys_of_zip (y :: rest) a b h1
      rw [pairWalkKeys]
      exact ⟨by simp [hr.1], by simp [hr.2.1], by simp [hr.2.2]⟩

/-- The keys of all but the last position are among the pair-walk keys. -/
theorem pairWalkKeys_of_dropLast :
    ∀ (ks : List String) (a : String),
      a ∈ ks.dropLast → a ∈ pairWalkKeys ks
  | [], _, h => by simp at h
  | [_], _, h => by simp at h
  | x :: y :: rest, a, h => by
    rw [show (x :: y :: rest).dropLast = x :: (y :: rest).dropLast from rfl]
      at h
    rw [pairWalkKeys]
    rcases List.mem_cons.mp h with h1 | h1
    · simp [h1]
    · simp [pairWalkKeys_of_dropLast (y :: rest) a h1]

/-- Lookups inside the pair-walk entry block: self-couplings of all but
the last key, and both directions of each adjacent-pair mean. -/
theorem pairWalk_lookup (merged : List (String × ℚ)) (precision : ℕ) :
    ∀ ks : List String,
      (pairWalkKeys ks).Nodup →
      (∀ a ∈ ks.dropLast,
        dictLookup (pairWalkEntries merged precision ks) a =
          some ((dictLookup merged a).getD 0)) ∧
      (∀ a b, (a, b) ∈ ks.zip ks.tail →
        dictLookup (pairWalkEntries merged precision ks) (a ++ ":" ++ b) =
          some (roundTo precision
            (((dictLookup merged a).getD 0 +
              (dictLookup merged b).getD 0) / 2)) ∧
        dictLookup (pairWalkEntries merged precision ks) (b ++ ":" ++ a) =
          some (roundTo precision
            (((dictLookup merged a).getD 0 +
              (dictLookup merged b).getD 0) / 2)))
  | [], _ => by constructor <;> intro a <;> simp
  | [k], _ => by
    constructor
    · intro a ha
      simp at ha
    · intro a b hab
      simp at hab
  | x :: y :: rest, hnd => by
    have hPW : pairWalkKeys (x :: y :: rest) =
        x :: (x ++ ":" ++ y) :: (y ++ ":" ++ x) :: pairWalkKeys (y :: rest) :=
      rfl
    rw [hPW] at hnd
    have hx_notin : x ∉ (x ++ ":" ++ y) :: (y ++ ":" ++ x) ::
        pairWalkKeys (y :: rest) := (List.nodup_cons.mp hnd).1
    have hnd2 := (List.nodup_cons.mp hnd).2
    have hxy_notin : (x ++ ":" ++ y) ∉ (y ++ ":" ++ x) ::
        pairWalkKeys (y :: rest) := (List.nodup_cons.mp hnd2).1
    have hnd3 := (List.nodup_cons.mp hnd2).2
    have hyx_notin : (y ++ ":" ++ x) ∉ pairWalkKeys (y :: rest) :=
      (List.nodup_cons.mp hnd3).1
    have hnd4 : (pairWalkKeys (y :: rest)).Nodup := (List.nodup_cons.mp hnd3).2
    have IH := pairWalk_lookup merged precision (y :: rest) hnd4
    have hPWE : pairWalkEntries merged precision (x :: y :: rest) =
        (x, (dictLookup merged x).getD 0) ::
        (x ++ ":" ++ y, roundTo precision
          (((dictLookup merged x).getD 0 + (dictLookup merged y).getD 0) / 2)) ::
        (y ++ ":" ++ x, roundTo precision
          (((dictLookup merged x).getD 0 + (dictLookup merged y).getD 0) / 2)) ::
        pairWalkEntries merged precision (y :: rest) := rfl
    constructor
    · intro a ha
      rw [show (x :: y :: rest).dropLast = x :: (y :: rest).dropLast from rfl]
        at ha
      rcases List.mem_cons.mp ha with h1 | h1
      · subst h1
        rw [hPWE]
        simp [dictLookup, List.find?]
      · have hmem : a ∈ pairWalkKeys (y :: rest) :=
          pairWalkKeys_of_dropLast (y :: rest) a h1
        have hne1 : ¬ x = a := by
          intro he
          exact hx_notin (by simp [he, hmem])
        have hne2 : ¬ (x ++ ":" ++ y) = a := by
          intro he
          exact hxy_notin (by simp [he, hmem])
        have hne3 : ¬ (y ++ ":" ++ x) = a := by
          intro he
          exact hyx_notin (he ▸ hmem)
        rw [hPWE]
        rw [show dictLookup ((x, (dictLookup merged x).getD 0) ::
            (x ++ ":" ++ y, roundTo precision
              (((dictLookup merged x).getD 0 +
                (dictLookup merged y).getD 0) / 2)) ::
            (y ++ ":" ++ x, roundTo precision
              (((dictLookup merged x).getD 0 +
                (dictLookup merged y).getD 0) / 2)) ::
            pairWalkEntries merged precision (y :: rest)) a =
            dictLookup (pairWalkEntries merged precision (y :: rest)) a
          from by simp [dictLookup, List.find?, hne1, hne2, hne3]]
        exact IH.1 a h1
    · intro a b hab
      rw [show (x :: y :: rest).zip (x :: y :: rest).tail =
          (x, y) :: (y :: rest).zip (y :: rest).tail from rfl] at hab
      rcases List.mem_cons.mp hab with h1 | h1
      · obtain ⟨hx, hy⟩ : a = x ∧ b = y := Prod.mk.injEq .. ▸ h1
        subst hx
        subst hy
        have hne1 : ¬ a = (a ++ ":" ++ b) :=
          fun he => hx_notin (List.mem_cons.mpr (Or.inl he))
        have hne2 : ¬ a = (b ++ ":" ++ a) :=
          fun he => hx_notin
            (List.mem_cons.mpr (Or.inr (List.mem_cons.mpr (Or.inl he))))
        have hne3 : ¬ (a ++ ":" ++ b) = (b ++ ":" ++ a) :=
          fun he => hxy_notin (List.mem_cons.mpr (Or.inl he))
        rw [hPWE]
        constructor
        · simp [dictLookup, List.find?, hne1]
        · simp [dictLookup, List.find?, hne2, hne3]
      · have hr := pairWalkKeys_of_zip (y :: rest) a b h1
        have hne1 : ¬ x = (a ++ ":" ++ b) :=
          fun he => hx_notin (by
            refine List.mem_cons.mpr (Or.inr (List.mem_cons.mpr (Or.inr ?_)))
            exact he ▸ hr.2.1)
        have hne2 : ¬ (x ++ ":" ++ y) = (a ++ ":" ++ b) :=
          fun he => hxy_notin (by
            refine List.mem_cons.mpr (Or.inr ?_)
            exact he ▸ hr.2.1)
        have hne3 : ¬ (y ++ ":" ++ x) = (a ++ ":" ++ b) :=
          fun he => hyx_notin (he ▸ hr.2.1)
        have hne4 : ¬ x = (b ++ ":" ++ a) :=
          fun he => hx_notin (by
            refine List.mem_cons.mpr (Or.inr (List.mem_cons.mpr (Or.inr ?_)))
            exact he ▸ hr.2.2)
        have hne5 : ¬ (x ++ ":" ++ y) = (b ++ ":" ++ a) :=
          fun he => hxy_notin (by
            refine List.mem_cons.mpr (Or.inr ?_)
            exact he ▸ hr.2.2)
        have hne6 : ¬ (y ++ ":" ++ x) = (b ++ ":" ++ a) :=
          fun he => hyx_notin (he ▸ hr.2.2)
        have IHr := IH.2 a b h1
        rw [hPWE]
        constructor
        · rw [show dictLookup ((x, (dictLookup merged x).getD 0) ::
              (x ++ ":" ++ y, roundTo precision
                (((dictLookup merged x).getD 0 +
                  (dictLookup merged y).getD 0) / 2)) ::
              (y ++ ":" ++ x, roundTo precision
                (((dictLookup merged x).getD 0 +
                  (dictLookup merged y).getD 0) / 2)) ::
              pairWalkEntries merged precision (y :: rest)) (a ++ ":" ++ b) =
              dictLookup (pairWalkEntries merged precision (y :: rest))
                (a ++ ":" ++ b)
            from by simp [dictLookup, List.find?, hne1, hne2, hne3]]
          exact IHr.1
        · rw [show dictLookup ((x, (dictLookup merged x).getD 0) ::
              (x ++ ":" ++ y, roundTo precision
                (((dictLookup merged x).getD 0 +
                  (dictLookup merged y).getD 0) / 2)) ::
              (y ++ ":" ++ x, roundTo precision
                (((dictLookup merged x).getD 0 +
                  (dictLookup merged y).getD 0) / 2)) ::
              pairWalkEntries merged precision (y :: rest)) (b ++ ":" ++ a) =
              dictLookup (pairWalkEntries merged precision (y :: rest))
                (b ++ ":" ++ a)
            from by simp [dictLookup, List.find?, hne4, hne5, hne6]]
          exact IHr.2

/-- When every generated key is distinct, `add_inter_subregion_values`
produces exactly the concatenation of the left end caps, the pair-walk
entries, the last self-coupling and the right end caps. -/
theorem addInter_eq_concat (dicts : List (List (String × ℚ)))
    (left right : ℚ) (precision : ℕ) (first : String)
    (restKeys : List String)
    (hkeys : (dictMergeAll dicts).map Prod.fst = first :: restKeys)
    (hnd : (couplingKeys (first :: restKeys)).Nodup) :
    add_inter_subregion_values dicts left right precision =
      (([("entire:" ++ first, left)] ++ [(first ++ ":entire", left)]) ++
       pairWalkEntries (dictMergeAll dicts) precision (first :: restKeys)) ++
      ([(List.getLastD (first :: restKeys) first,
         (dictLookup (dictMergeAll dicts)
           (List.getLastD (first :: restKeys) first)).getD 0)] ++
       ([(List.getLastD (first :: restKeys) first ++ ":entire", right)] ++
        [("entire:" ++ List.getLastD (first :: restKeys) first, right)])) := by
  have hCK : couplingKeys (first :: restKeys) =
      ("entire:" ++ first) :: (first ++ ":entire") ::
      (pairWalkKeys (first :: restKeys) ++
        [List.getLastD (first :: restKeys) first,
         List.getLastD (first :: restKeys) first ++ ":entire",
         "entire:" ++ List.getLastD (first :: restKeys) first]) := rfl
  rw [hCK] at hnd
  have h1 := (List.nodup_cons.mp hnd).1
  have hnd2 := (List.nodup_cons.mp hnd).2
  have h2 := (List.nodup_cons.mp hnd2).1
  have hnd3 := (List.nodup_cons.mp hnd2).2
  have htail_nd := (List.nodup_append.mp hnd3).2.1
  have hdisj := (List.nodup_append.mp hnd3).2.2
  have hf1 : ¬ ("entire:" ++ first) ∈
      (([] : List (String × ℚ)).map Prod.fst) := by simp
  have hf2 : ¬ (first ++ ":entire") ∈
      (([("entire:" ++ first, left)] : List (String × ℚ)).map Prod.fst) := by
    simp only [List.map_cons, List.map_nil, List.mem_cons, List.not_mem_nil,
      or_false]
    intro he
    exact h1 (by rw [← he]; exact List.mem_cons_self _ _)
  have hloop : interSubregionLoop (dictMergeAll dicts) precision
      (first :: restKeys)
      ([("entire:" ++ first, left)] ++ [(first ++ ":entire", left)]) =
      ([("entire:" ++ first, left)] ++ [(first ++ ":entire", left)]) ++
        pairWalkEntries (dictMergeAll dicts) precision (first :: restKeys) := by
    refine interLoop_append (dictMergeAll dicts) precision
      (first :: restKeys) _ ?_
    simp only [List.map_append, List.map_cons, List.map_nil]
    rw [show ((["entire:" ++ first] ++ [first ++ ":entire"]) ++
        pairWalkKeys (first :: restKeys)) =
        ("entire:" ++ first) :: (first ++ ":entire") ::
          pairWalkKeys (first :: restKeys) from rfl]
    refine List.Nodup.sublist ?_ hnd
    refine List.Sublist.cons₂ _ (List.Sublist.cons₂ _ ?_)
    exact List.sublist_append_left _ _
  have hlast_notin_PW : ¬ (List.getLastD (first :: restKeys) first) ∈
      pairWalkKeys (first :: restKeys) :=
    fun hm2 => hdisj hm2 (by simp)
  have hf3 : ¬ (List.getLastD (first :: restKeys) first) ∈
      ((([("entire:" ++ first, left)] ++ [(first ++ ":entire", left)]) ++
        pairWalkEntries (dictMergeAll dicts) precision
          (first :: restKeys)).map Prod.fst) := by
    simp only [List.map_append, List.map_cons, List.map_nil,
      pairWalkEntries_keys, List.mem_append, List.mem_cons,
      List.not_mem_nil, or_false]
    push_neg
    refine ⟨⟨?_, ?_⟩, hlast_notin_PW⟩
    · intro he
      exact h1 (by rw [← he]; simp)
    · intro he
      exact h2 (by rw [← he]; simp)
  have hlast_ne : ((List.getLastD (first :: restKeys) first) ++ ":entire") ∉
      pairWalkKeys (first :: restKeys) :=
    fun hm2 => hdisj hm2 (by simp)
  have hf4 : ¬ ((List.getLastD (first :: restKeys) first) ++ ":entire") ∈
      (((([("entire:" ++ first, left)] ++ [(first ++ ":entire", left)]) ++
        pairWalkEntries (dictMergeAll dicts) precision (first :: restKeys)) ++
        [(List.getLastD (first :: restKeys) first,
          (dictLookup (dictMergeAll dicts)
            (List.getLastD (first :: restKeys) first)).getD 0)]).map
        Prod.fst) := by
    simp only [List.map_append, List.map_cons, List.map_nil,
      pairWalkEntries_keys, List.mem_append, List.mem_cons,
      List.not_mem_nil, or_false]
    push_neg
    refine ⟨⟨⟨?_, ?_⟩, hlast_ne⟩, ?_⟩
    · intro he
      exact h1 (by rw [← he]; simp)
    · intro he
      exact h2 (by rw [← he]; simp)
    · intro he
      exact (List.nodup_cons.mp htail_nd).1
        (List.mem_cons.mpr (Or.inl he.symm))
  have hel_ne : ("entire:" ++ (List.getLastD (first :: restKeys) first)) ∉
      pairWalkKeys (first :: restKeys) :=
    fun hm2 => hdisj hm2 (by simp)
  have hf5 : ¬ ("entire:" ++ (List.getLastD (first :: restKeys) first)) ∈
      ((((([("entire:" ++ first, left)] ++ [(first ++ ":entire", left)]) ++
        pairWalkEntries (dictMergeAll dicts) precision (first :: restKeys)) ++
        [(List.getLastD (first :: restKeys) first,
          (dictLookup (dictMergeAll dicts)
            (List.getLastD (first :: restKeys) first)).getD 0)]) ++
        [(List.getLastD (first :: restKeys) first ++ ":entire", right)]).map
        Prod.fst) := by
    simp only [List.map_append, List.map_cons, List.map_nil,
      pairWalkEntries_keys, List.mem_append, List.mem_cons,
      List.not_mem_nil, or_false]
    push_neg
    refine ⟨⟨⟨⟨?_, ?_⟩, hel_ne⟩, ?_⟩, ?_⟩
    · intro he
      exact h1 (by rw [← he]; simp)
    · intro he
      exact h2 (by rw [← he]; simp)
    · intro he
      exact (List.nodup_cons.mp htail_nd).1
        (List.mem_cons.mpr (Or.inr (List.mem_cons.mpr (Or.inl he.symm))))
    · intro he
      exact (List.nodup_cons.mp (List.nodup_cons.mp htail_nd).2).1
        (List.mem_cons.mpr (Or.inl he.symm))
  rw [add_inter_subregion_values]
  rw [hkeys]
  show dictInsert (dictInsert (dictInsert (interSubregionLoop
      (dictMergeAll dicts) precision (first :: restKeys)
      (dictInsert (dictInsert [] ("entire:" ++ first) left)
        (first ++ ":entire") left))
      (List.getLastD (first :: restKeys) first)
      ((dictLookup (dictMergeAll dicts)
        (List.getLastD (first :: restKeys) first)).getD 0))
      (List.getLastD (first :: restKeys) first ++ ":entire") right)
      ("entire:" ++ List.getLastD (first :: restKeys) first) right = _
  rw [dictInsert_fresh _ _ _ hf1]
  rw [show (([] : List (String × ℚ)) ++ [("entire:" ++ first, left)]) =
    [("entire:" ++ first, left)] from by simp]
  rw [dictInsert_fresh _ _ _ hf2]
  rw [show ([("entire:" ++ first, left)] ++ [(first ++ ":entire", left)] :
      List (String × ℚ)) =
    [("entire:" ++ first, left)] ++ [(first ++ ":entire", left)] from rfl]
  rw [hloop]
  rw [dictInsert_fresh _ _ _ hf3]
  rw [dictInsert_fresh _ _ _ hf4]
  rw [dictInsert_fresh _ _ _ hf5]
  simp [List.append_assoc]

/-- A nonempty list is its dropLast plus its `getLastD`. -/
theorem dropLast_append_getLastD {α : Type} :
    ∀ (l : List α) (x : α),
      (x :: l).dropLast ++ [List.getLastD (x :: l) x] = x :: l
  | [], _ => rfl
  | y :: l, x => by
    rw [show (x :: y :: l).dropLast = x :: (y :: l).dropLast from rfl]
    rw [show List.getLastD (x :: y :: l) x = List.getLastD (y :: l) y from rfl]
    rw [List.cons_append, dropLast_append_getLastD l y]

/-- C5: `add_inter_subregion_values` merges its input dicts last-wins,
preserves each self-coupling entry, inserts both directions of each
adjacent-pair mean rounded to the requested precision, and writes the two
chain end caps; on `{"a": 1, "b": 3}` with `left = 0.1`, `right = 0.2`,
`precision = 4` it yields exactly the map
`{a: 1, b: 3, a:b: 2, b:a: 2, entire:a: 0.1, a:entire: 0.1,
b:entire: 0.2, entire:b: 0.2}`. -/
theorem claim5_coupling_table :
    (∀ (dicts : List (List (String × ℚ))) (k : String),
      (∀ d ∈ dicts, (d.map Prod.fst).Nodup) →
      dictLookup (dictMergeAll dicts) k = lastLookup dicts k) ∧
    (∀ (dicts : List (List (String × ℚ))) (left right : ℚ)
      (precision : ℕ) (first : String) (restKeys : List String),
      (dictMergeAll dicts).map Prod.fst = first :: restKeys →
      (couplingKeys (first :: restKeys)).Nodup →
      (∀ kk ∈ first :: restKeys,
        dictLookup (add_inter_subregion_values dicts left right precision)
          kk = dictLookup (dictMergeAll dicts) kk) ∧
      (∀ a b va vb,
        (a, b) ∈ (first :: restKeys).zip restKeys →
        dictLookup (dictMergeAll dicts) a = some va →
        dictLookup (dictMergeAll dicts) b = some vb →
        dictLookup (add_inter_subregion_values dicts left right precision)
            (a ++ ":" ++ b) = some (roundTo precision ((va + vb) / 2)) ∧
        dictLookup (add_inter_subregion_values dicts left right precision)
            (b ++ ":" ++ a) = some (roundTo precision ((va + vb) / 2))) ∧
      dictLookup (add_inter_subregion_values dicts left right precision)
          ("entire:" ++ first) = some left ∧
      dictLookup (add_inter_subregion_values dicts left right precision)
          (first ++ ":entire") = some left ∧
      dictLookup (add_inter_subregion_values dicts left right precision)
          (List.getLastD (first :: restKeys) first ++ ":entire") =
        some right ∧
      dictLookup (add_inter_subregion_values dicts left right precision)
          ("entire:" ++ List.getLastD (first :: restKeys) first) =
        some right) ∧
    (add_inter_subregion_values [[("a", 1), ("b", 3)]] (1/10) (1/5) 4 =
      [("entire:a", 1/10), ("a:entire", 1/10), ("a", 1), ("a:b", 2),
       ("b:a", 2), ("b", 3), ("b:entire", 1/5), ("entire:b", 1/5)] ∧
     dictLookup (add_inter_subregion_values [[("a", 1), ("b", 3)]]
       (1/10) (1/5) 4) "a" = some 1 ∧
     dictLookup (add_inter_subregion_values [[("a", 1), ("b", 3)]]
       (1/10) (1/5) 4) "b" = some 3 ∧
     dictLookup (add_inter_subregion_values [[("a", 1), ("b", 3)]]
       (1/10) (1/5) 4) "a:b" = some 2 ∧
     dictLookup (add_inter_subregion_values [[("a", 1), ("b", 3)]]
       (1/10) (1/5) 4) "b:a" = some 2 ∧
     dictLookup (add_inter_subregion_values [[("a", 1), ("b", 3)]]
       (1/10) (1/5) 4) "entire:a" = some (1/10) ∧
     dictLookup (add_inter_subregion_values [[("a", 1), ("b", 3)]]
       (1/10) (1/5) 4) "a:entire" = some (1/10) ∧
     dictLookup (add_inter_subregion_values [[("a", 1), ("b", 3)]]
       (1/10) (1/5) 4) "b:entire" = some (1/5) ∧
     dictLookup (add_inter_subregion_values [[("a", 1), ("b", 3)]]
       (1/10) (1/5) 4) "entire:b" = some (1/5)) := by
  refine ⟨fun dicts k hnd => dictLookup_mergeAll dicts k hnd, ?_, by decide⟩
  intro dicts left right precision first restKeys hkeys hnd
  have hconcat := addInter_eq_concat dicts left right precision first
    restKeys hkeys hnd
  have hCK : couplingKeys (first :: restKeys) =
      ("entire:" ++ first) :: (first ++ ":entire") ::
      (pairWalkKeys (first :: restKeys) ++
        [List.getLastD (first :: restKeys) first,
         List.getLastD (first :: restKeys) first ++ ":entire",
         "entire:" ++ List.getLastD (first :: restKeys) first]) := rfl
  rw [hCK] at hnd
  have h1 := (List.nodup_cons.mp hnd).1
  have hnd2 := (List.nodup_cons.mp hnd).2
  have h2 := (List.nodup_cons.mp hnd2).1
  have hnd3 := (List.nodup_cons.mp hnd2).2
  have hPWnd := (List.nodup_append.mp hnd3).1
  have htail_nd := (List.nodup_append.mp hnd3).2.1
  have hdisj := (List.nodup_append.mp hnd3).2.2
  have hPL := pairWalk_lookup (dictMergeAll dicts) precision
    (first :: restKeys) hPWnd
  have hlookupA : ∀ kk : String, ¬ ("entire:" ++ first) = kk →
      ¬ (first ++ ":entire") = kk →
      dictLookup ([("entire:" ++ first, left)] ++
        [(first ++ ":entire", left)] : List (String × ℚ)) kk = none := by
    intro kk hne1 hne2
    simp [dictLookup, List.find?, hne1, hne2]
  have hconcat2 : add_inter_subregion_values dicts left right precision =
      (([("entire:" ++ first, left)] ++ [(first ++ ":entire", left)]) ++
       pairWalkEntries (dictMergeAll dicts) precision (first :: restKeys)) ++
      ([(List.getLastD (first :: restKeys) first,
         (dictLookup (dictMergeAll dicts)
           (List.getLastD (first :: restKeys) first)).getD 0)] ++
       ([(List.getLastD (first :: restKeys) first ++ ":entire", right)] ++
        [("entire:" ++ List.getLastD (first :: restKeys) first, right)])) :=
    hconcat
  refine ⟨?_, ?_, ?_, ?_, ?_, ?_⟩
  · -- self-couplings
    intro kk hkk
    have hdecomp := dropLast_append_getLastD restKeys first
    rw [← hdecomp] at hkk
    rcases List.mem_append.mp hkk with hdl | hlast
    · -- kk strictly before the last position
      have hmemPW : kk ∈ pairWalkKeys (first :: restKeys) :=
        pairWalkKeys_of_dropLast (first :: restKeys) kk hdl
      have hne1 : ¬ ("entire:" ++ first) = kk :=
        fun he => h1 (by rw [he]; simp [hmemPW])
      have hne2 : ¬ (first ++ ":entire") = kk :=
        fun he => h2 (by rw [he]; simp [hmemPW])
      have hkmem : kk ∈ (dictMergeAll dicts).map Prod.fst := by
        rw [hkeys, ← hdecomp]
        exact List.mem_append.mpr (Or.inl hdl)
      obtain ⟨v, hv⟩ := dictLookup_isSome (dictMergeAll dicts) kk hkmem
      rw [hconcat2, dictLookup_append, dictLookup_append,
        hlookupA kk hne1 hne2]
      rw [hPL.1 kk hdl, hv]
      simp
    · have hkkl : kk = List.getLastD (first :: restKeys) first := by
        simpa using hlast
      rw [hkkl]
      have hne1 : ¬ ("entire:" ++ first) =
          List.getLastD (first :: restKeys) first :=
        fun he => h1 (by rw [he]; simp)
      have hne2 : ¬ (first ++ ":entire") =
          List.getLastD (first :: restKeys) first :=
        fun he => h2 (by rw [he]; simp)
      have hnotPW : ¬ List.getLastD (first :: restKeys) first ∈
          pairWalkKeys (first :: restKeys) :=
        fun hm2 => hdisj hm2 (by simp)
      have hkmem : List.getLastD (first :: restKeys) first ∈
          (dictMergeAll dicts).map Prod.fst := by
        rw [hkeys, ← hdecomp]
        exact List.mem_append.mpr (Or.inr (by simp))
      obtain ⟨v, hv⟩ := dictLookup_isSome (dictMergeAll dicts) _ hkmem
      rw [hconcat2, dictLookup_append, dictLookup_append,
        hlookupA _ hne1 hne2]
      rw [dictLookup_eq_none
        (pairWalkEntries (dictMergeAll dicts) precision (first :: restKeys))
        _ (by rw [pairWalkEntries_keys]; exact hnotPW)]
      rw [hv]
      simp [dictLookup, List.find?]
  · -- adjacent pair entries
    intro a b va vb hab hva hvb
    have hzip : (a, b) ∈ (first :: restKeys).zip (first :: restKeys).tail :=
      hab
    have hr := pairWalkKeys_of_zip (first :: restKeys) a b hzip
    have hne1 : ¬ ("entire:" ++ first) = (a ++ ":" ++ b) :=
      fun he => h1 (by rw [he]; simp [hr.2.1])
    have hne2 : ¬ (first ++ ":entire") = (a ++ ":" ++ b) :=
      fun he => h2 (by rw [he]; simp [hr.2.1])
    have hne3 : ¬ ("entire:" ++ first) = (b ++ ":" ++ a) :=
      fun he => h1 (by rw [he]; simp [hr.2.2])
    have hne4 : ¬ (first ++ ":entire") = (b ++ ":" ++ a) :=
      fun he => h2 (by rw [he]; simp [hr.2.2])
    have hPLr := hPL.2 a b hzip
    rw [hva, hvb] at hPLr
    constructor
    · rw [hconcat2, dictLookup_append, dictLookup_append,
        hlookupA _ hne1 hne2, hPLr.1]
      simp
    · rw [hconcat2, dictLookup_append, dictLookup_append,
        hlookupA _ hne3 hne4, hPLr.2]
      simp
  · rw [hconcat2, dictLookup_append]
    simp [dictLookup, List.find?]
  · have hne : ¬ ("entire:" ++ first) = (first ++ ":entire") :=
      fun he => h1 (by rw [he]; simp)
    rw [hconcat2, dictLookup_append, dictLookup_append]
    simp [dictLookup, List.find?, hne]
  · have hne1 : ¬ ("entire:" ++ first) =
        (List.getLastD (first :: restKeys) first ++ ":entire") :=
      fun he => h1 (by rw [he]; simp)
    have hne2 : ¬ (first ++ ":entire") =
        (List.getLastD (first :: restKeys) first ++ ":entire") :=
      fun he => h2 (by rw [he]; simp)
    have hnotPW : ¬ (List.getLastD (first :: restKeys) first ++ ":entire") ∈
        pairWalkKeys (first :: restKeys) :=
      fun hm2 => hdisj hm2 (by simp)
    have hne3 : ¬ (List.getLastD (first :: restKeys) first) =
        (List.getLastD (first :: restKeys) first ++ ":entire") :=
      fun he => (List.nodup_cons.mp htail_nd).1
        (List.mem_cons.mpr (Or.inl he))
    rw [hconcat2, dictLookup_append, dictLookup_append,
      hlookupA _ hne1 hne2]
    rw [dictLookup_eq_none
      (pairWalkEntries (dictMergeAll dicts) precision (first :: restKeys))
      _ (by rw [pairWalkEntries_keys]; exact hnotPW)]
    simp only [List.getLastD_eq_getLast?] at hne3 ⊢
    simp [dictLookup, List.find?, hne3]
  · have hne1 : ¬ ("entire:" ++ first) =
        ("entire:" ++ List.getLastD (first :: restKeys) first) := by
      intro he
      exact h1 (by rw [he]; simp)
    have hne2 : ¬ (first ++ ":entire") =
        ("entire:" ++ List.getLastD (first :: restKeys) first) :=
      fun he => h2 (by rw [he]; simp)
    have hnotPW : ¬ ("entire:" ++ List.getLastD (first :: restKeys) first) ∈
        pairWalkKeys (first :: restKeys) :=
      fun hm2 => hdisj hm2 (by simp)
    have hne3 : ¬ (List.getLastD (first :: restKeys) first) =
        ("entire:" ++ List.getLastD (first :: restKeys) first) :=
      fun he => (List.nodup_cons.mp htail_nd).1
        (List.mem_cons.mpr (Or.inr (List.mem_cons.mpr (Or.inl he))))
    have hne4 : ¬ (List.getLastD (first :: restKeys) first ++ ":entire") =
        ("entire:" ++ List.getLastD (first :: restKeys) first) :=
      fun he => (List.nodup_cons.mp (List.nodup_cons.mp htail_nd).2).1
        (List.mem_cons.mpr (Or.inl he))
    rw [hconcat2, dictLookup_append, dictLookup_append,
      hlookupA _ hne1 hne2]
    rw [dictLookup_eq_none
      (pairWalkEntries (dictMergeAll dicts) precision (first :: restKeys))
      _ (by rw [pairWalkEntries_keys]; exact hnotPW)]
    simp only [List.getLastD_eq_getLast?] at hne3 hne4 ⊢
    simp [dictLookup, List.find?, hne3, hne4]

/-- C5 witness: the coupling-table theorem applied to the merged map
`{"a": 1, "b": 3}` with `left = 1/10`, `right = 1/5`, `precision = 4`. -/
theorem claim5_witness :
    dictLookup (add_inter_subregion_values [[("a", 1), ("b", 3)]]
        (1/10) (1/5) 4) ("a" ++ ":" ++ "b") =
      some (roundTo 4 ((1 + 3) / 2)) ∧
    dictLookup (add_inter_subregion_values [[("a", 1), ("b", 3)]]
        (1/10) (1/5) 4) ("entire:" ++ "a") = some (1/10) :=
  ⟨((claim5_coupling_table.2.1 [[("a", 1), ("b", 3)]] (1/10) (1/5) 4 "a"
      ["b"] (by decide) (by decide)).2.1 "a" "b" 1 3 (by decide) (by decide)
      (by decide)).1,
   (claim5_coupling_table.2.1 [[("a", 1), ("b", 3)]] (1/10) (1/5) 4 "a"
      ["b"] (by decide) (by decide)).2.2.1⟩

/-- C9: when the merged input of `add_inter_subregion_values` has exactly
one key `k`, the result is the three-entry map
`{entire:k: right, k:entire: right, k: value}` — the `left` end caps
written first are overwritten in place by the `right` writes (first and
last key coincide), so `left` survives only if it equals `right` or the
key's own value. -/
theorem claim9_single_key_right_overwrites
    (dicts : List (List (String × ℚ))) (left right : ℚ) (precision : ℕ)
    (k : String) (v : ℚ)
    (hmerged : dictMergeAll dicts = [(k, v)])
    (hne1 : ¬ ("entire:" ++ k) = (k ++ ":entire"))
    (hne2 : ¬ ("entire:" ++ k) = k)
    (hne3 : ¬ (k ++ ":entire") = k) :
    add_inter_subregion_values dicts left right precision =
      [("entire:" ++ k, right), (k ++ ":entire", right), (k, v)] ∧
    dictLookup (add_inter_subregion_values dicts left right precision)
        ("entire:" ++ k) = some right ∧
    dictLookup (add_inter_subregion_values dicts left right precision)
        (k ++ ":entire") = some right ∧
    dictLookup (add_inter_subregion_values dicts left right precision) k =
      some v ∧
    (left ∈ (add_inter_subregion_values dicts left right precision).map
        Prod.snd → left = right ∨ left = v) := by
  have hne1' : ¬ (k ++ ":entire") = ("entire:" ++ k) :=
    fun he => hne1 he.symm
  have hne2' : ¬ k = ("entire:" ++ k) := fun he => hne2 he.symm
  have hne3' : ¬ k = (k ++ ":entire") := fun he => hne3 he.symm
  have hres : add_inter_subregion_values dicts left right precision =
      [("entire:" ++ k, right), (k ++ ":entire", right), (k, v)] := by
    rw [add_inter_subregion_values, hmerged]
    show dictInsert (dictInsert (dictInsert
        (interSubregionLoop [(k, v)] precision [k]
          (dictInsert (dictInsert [] ("entire:" ++ k) left)
            (k ++ ":entire") left))
        k ((dictLookup [(k, v)] k).getD 0))
      (k ++ ":entire") right) ("entire:" ++ k) right =
      [("entire:" ++ k, right), (k ++ ":entire", right), (k, v)]
    rw [show interSubregionLoop [(k, v)] precision [k]
        (dictInsert (dictInsert [] ("entire:" ++ k) left)
          (k ++ ":entire") left) =
      dictInsert (dictInsert [] ("entire:" ++ k) left)
        (k ++ ":entire") left from rfl]
    simp [dictInsert, dictLookup, List.find?, hne1, hne1', hne2, hne2',
      hne3, hne3']
  refine ⟨hres, ?_, ?_, ?_, ?_⟩
  · rw [hres]
    simp [dictLookup, List.find?]
  · rw [hres]
    simp [dictLookup, List.find?, hne1]
  · rw [hres]
    simp [dictLookup, List.find?, hne2, hne3]
  · rw [hres]
    intro h
    simp at h
    tauto

/-- C9 witness: the single-key theorem applied to the merged map
`{"a": 5}` with `left = 1/10`, `right = 1/5`. -/
theorem claim9_witness :
    add_inter_subregion_values [[("a", 5)]] (1/10) (1/5) 4 =
      [("entire:" ++ "a", 1/5), ("a" ++ ":entire", 1/5), ("a", 5)] :=
  (claim9_single_key_right_overwrites [[("a", 5)]] (1/10) (1/5) 4 "a" 5
    (by decide) (by decide) (by decide) (by decide)).1
